import Mathlib

/-!
Verification of the multi-channel PPG analysis pipeline of this repository
against its specification.

Embedding conventions:
* JavaScript `number` (IEEE double) arithmetic is idealised as exact rational
  arithmetic over `ℚ`; `Math.round x` becomes `⌊x + 1/2⌋`, `Math.floor` over
  non-negative quantities becomes natural division.
* JavaScript truthiness of a `number | null` value is modelled by `jsTruthy`
  (`null` and `0` are falsy), and `a || b` by `jsOr`.
* The classes `PPGChannel` (src/modules/signal-processing/PPGChannel.ts) and
  `MultiChannelManager` (the optimised revision carrying
  `FRAMES_TO_LOSE_FINGER` and `aggregateBPMAdvanced`) become records, and
  their mutating methods become state-passing functions.
* The DSP primitive modules imported by `PPGChannel`
  (`Biquad`, `SavitzkyGolayFilter`, `Goertzel`, `TimeDomainPeak`) are not
  present in the repository snapshot; following §4.1 of the spec they are kept
  abstract as the parameter record `DSPKernels`, and every theorem about
  `analyze` is proved for an arbitrary choice of these kernels.
  `Math.sqrt` (not exactly representable over `ℚ`) is abstracted the same way.
-/

/-- JavaScript `Math.round`: round half up, `Math.round x = ⌊x + 1/2⌋`. -/
def jsRound (x : ℚ) : ℚ := ((⌊x + 1/2⌋ : ℤ) : ℚ)

/-- Truthiness of a JavaScript `number | null` value: `null` and `0` are falsy. -/
def jsTruthy : Option ℚ → Bool
  | none => false
  | some v => decide (v ≠ 0)

/-- JavaScript `a || b` on `number | null` values (used for `bpmTemporal || bpmSpectral`). -/
def jsOr (a b : Option ℚ) : Option ℚ := if jsTruthy a then a else b

/-- JavaScript `Math.max(...l)` for the non-empty lists it is applied to
(the empty case, `-Infinity` in JS, is never reached and is mapped to `0`). -/
def jsMax (l : List ℚ) : ℚ :=
  match l with
  | [] => 0
  | h :: t => t.foldl max h

/-- `linspace(start, stop, num)` of PPGChannel: `num` evenly spaced points. -/
def linspace (start stop : ℚ) (num : ℕ) : List ℚ :=
  (List.range num).map (fun (i : ℕ) => start + (stop - start) * ((i : ℚ) / ((num : ℚ) - 1)))

/-- Ascending comparison sort, modelling `arr.slice().sort((a, b) => a - b)`. -/
def sortAsc (l : List ℚ) : List ℚ := List.insertionSort (· ≤ ·) l

/-- Descending comparison sort, modelling `arr.slice().sort((a, b) => b - a)`. -/
def sortDesc (l : List ℚ) : List ℚ := List.insertionSort (fun a b => b ≤ a) l

/-- `median` of PPGChannel: ascending sort, then middle element or mean of the
two middle elements; `0` on the empty list. -/
def medianQ (arr : List ℚ) : ℚ :=
  if arr = [] then 0
  else
    let sorted := sortAsc arr
    let mid := arr.length / 2
    if arr.length % 2 = 0 then (sorted.getD (mid - 1) 0 + sorted.getD mid 0) / 2
    else sorted.getD mid 0

/-- `[...].filter(Boolean).length` over a list of booleans. -/
def countTrue (l : List Bool) : ℕ := (l.filter id).length

/-- One buffered sample of PPGChannel: `{ t: seconds, v: gain-scaled value }`. -/
structure Sample where
  t : ℚ
  v : ℚ
deriving DecidableEq, Repr

instance : Inhabited Sample := ⟨⟨0, 0⟩⟩

/-- State of one `PPGChannel` instance: id, rolling sample buffer, window
length in seconds and current gain.  The detection thresholds
(`minRMeanForFinger` etc.) are initialised to constants and never reassigned,
so they are embedded as plain definitions below rather than state. -/
structure PPGChannel where
  channelId : ℕ
  buffer : List Sample
  windowSec : ℚ
  gain : ℚ
deriving DecidableEq

/-- The `PPGChannel` constructor: empty buffer, given window and initial gain. -/
def mkPPGChannel (channelId : ℕ) (windowSec gain : ℚ) : PPGChannel :=
  ⟨channelId, [], windowSec, gain⟩

/-- `pushSample(rawValue, timestampMs)`: append the gain-scaled sample, then
shift samples from the front while the oldest is older than the window. -/
def PPGChannel.pushSample (ch : PPGChannel) (rawValue tMs : ℚ) : PPGChannel :=
  let t := tMs / 1000
  let v := rawValue * ch.gain
  let buf := ch.buffer ++ [⟨t, v⟩]
  { ch with buffer := buf.dropWhile (fun s => decide (s.t < t - ch.windowSec)) }

/-- `adjustGainRel(rel)`: multiply the gain by `(1 + rel)`, clamp to `[0.1, 10]`. -/
def PPGChannel.adjustGainRel (ch : PPGChannel) (rel : ℚ) : PPGChannel :=
  { ch with gain := max (1/10) (min 10 (ch.gain * (1 + rel))) }

/-- `setGain(g)`: direct setter, clamped to `[0.1, 10]`. -/
def PPGChannel.setGain (ch : PPGChannel) (g : ℚ) : PPGChannel :=
  { ch with gain := max (1/10) (min 10 g) }

/-- `getGain()`. -/
def PPGChannel.getGain (ch : PPGChannel) : ℚ := ch.gain

/-- Inner scan of `resampleUniform`: starting from `j = 0`, advance `j` while
`j < samples.length - 1` and `samples[j + 1].t < targetTime`.  The resulting
index equals the length of the longest prefix of `samples.drop 1` whose
times are below `targetTime`. -/
def scanIdx (samples : List Sample) (target : ℚ) : ℕ :=
  ((samples.drop 1).takeWhile (fun s => decide (s.t < target))).length

/-- `resampleUniform(samples, N)`: resample the irregular buffer onto `N`
uniform points with smoothstep (Hermite) interpolation between the two
bracketing samples. -/
def resampleUniform (samples : List Sample) (N : ℕ) : List ℚ :=
  if samples.isEmpty then []
  else
    let t0 := (samples.headD default).t
    let t1 := (samples.getLastD default).t
    let T := max (1/1000) (t1 - t0)
    (List.range N).map (fun (i : ℕ) =>
      let target := t0 + ((i : ℚ) / ((N : ℚ) - 1)) * T
      let j := scanIdx samples target
      let s0 := samples.getD j default
      let s1 := samples.getD (min (samples.length - 1) (j + 1)) default
      if s1.t = s0.t then s0.v
      else
        let alpha := (target - s0.t) / (s1.t - s0.t)
        let sa := alpha * alpha * (3 - 2 * alpha)
        s0.v * (1 - sa) + s1.v * sa)

/-- Modelled from the spec: the DSP primitive modules imported by `PPGChannel`
(`Biquad.setBandpass`/`processArray`, `savitzkyGolay`, `goertzelPower`,
`detectPeaks`) and `Math.sqrt` are missing from the repository snapshot and
are specified in §4.1 only at interface level, so they are kept abstract;
every theorem below holds for an arbitrary choice of kernels.
`detectPeaksRR` returns the `rr` intervals, the only output of `detectPeaks`
that `analyze` consumes. -/
structure DSPKernels where
  biquadBandpass : ℚ → ℚ → ℚ → List ℚ → List ℚ
  savitzkyGolay : List ℚ → ℕ → List ℚ
  goertzelPower : List ℚ → ℚ → ℚ → ℚ
  detectPeaksRR : List ℚ → ℚ → ℚ → ℚ → List ℚ
  sqrtQ : ℚ → ℚ

/-- A trivial choice of kernels, used to instantiate witnesses. -/
def dspTrivial : DSPKernels :=
  ⟨fun _ _ _ s => s, fun s _ => s, fun _ _ _ => 0, fun _ _ _ _ => [], fun _ => 0⟩

/-- The result record produced by `PPGChannel.analyze`. -/
structure PPGOut where
  calibratedSignal : List ℚ
  bpm : Option ℚ
  rrIntervals : List ℚ
  snr : ℚ
  quality : ℚ
  isFingerDetected : Bool
  gain : ℚ
deriving DecidableEq

/-- The fixed "no data" result returned when the buffer holds fewer than 50
samples. -/
def noDataResult (g : ℚ) : PPGOut :=
  ⟨[], none, [], 0, 0, false, g⟩

/-- The raw composite quality sum of `analyze` (before `min 100` and rounding):
spectral SNR part (≤ 40), variance indicator (25), buffer-fullness part
(10/15/20) and raw peak power part (≤ 15). -/
def qualityScore (snr variance : ℚ) (bufLen : ℕ) (maxPower : ℚ) : ℚ :=
  min 40 (max 0 ((snr - 1) * 20))
    + (if 3/2 < variance then 25 else 0)
    + (if 150 ≤ bufLen then 20 else if 100 ≤ bufLen then 15 else 10)
    + min 15 (max 0 ((maxPower - 1/10000) * 50000))

/-- The quality field of the returned record: `Math.round(Math.min(100, quality))`. -/
def reportedQuality (snr variance : ℚ) (bufLen : ℕ) (maxPower : ℚ) : ℚ :=
  jsRound (min 100 (qualityScore snr variance bufLen maxPower))

/-- `bpm && bpm >= lo && bpm <= hi` as a boolean (for the `bpmOk` criterion). -/
def optInRange (o : Option ℚ) (lo hi : ℚ) : Bool :=
  jsTruthy o && decide (lo ≤ o.getD 0) && decide (o.getD 0 ≤ hi)

/-- The main (buffer length ≥ 50) branch of `PPGChannel.analyze`. -/
def PPGChannel.analyzeFull (dsp : DSPKernels) (ch : PPGChannel) : PPGOut :=
  let N : ℕ := 256
  let sampled := resampleUniform ch.buffer N
  let len : ℚ := sampled.length
  let mean := sampled.sum / len
  let variance := (sampled.map (fun b => (b - mean) * (b - mean))).sum / len
  let std := dsp.sqrtQ variance
  let normalized :=
    if 1/2 < std then sampled.map (fun x => (x - mean) / std)
    else sampled.map (fun x => x - mean)
  let fs := (N : ℚ) / ch.windowSec
  let filtered := dsp.biquadBandpass (9/5) (4/5) fs normalized
  let smooth := dsp.savitzkyGolay filtered 15
  let freqs := linspace (4/5) 4 200
  let powers := freqs.map (fun f => dsp.goertzelPower smooth fs f)
  let maxPower := jsMax powers
  let maxIdx := powers.indexOf maxPower
  let peakFreq := freqs.getD maxIdx 0
  let sortedPowers := sortDesc powers
  let signalPower := sortedPowers.getD 0 0
  let noiseStart := sortedPowers.length * 3 / 10
  let noisePowers := sortedPowers.drop noiseStart
  let noisePower := medianQ noisePowers
  let snr := signalPower / max (1/1000000) noisePower
  let quality := reportedQuality snr variance ch.buffer.length maxPower
  let bpmSpectral : Option ℚ :=
    if 1/100000 < maxPower then some (jsRound (peakFreq * 60)) else none
  let rr := dsp.detectPeaksRR smooth fs 400 (3/25)
  let bpmTemporal : Option ℚ :=
    if 3 ≤ rr.length then some (jsRound (60000 / (rr.sum / (rr.length : ℚ)))) else none
  let brightnessOk := decide (60 ≤ mean) && decide (mean ≤ 240)
  let varianceOk := decide (3/2 ≤ variance)
  let snrOk := decide (11/10 ≤ snr)
  let bpmOk := optInRange bpmSpectral 50 160 || optInRange bpmTemporal 50 160
  let signalStrengthOk := decide (1/100000 < maxPower)
  let criteriaCount := countTrue [brightnessOk, varianceOk, snrOk, bpmOk, signalStrengthOk]
  let fingerNow := decide (4 ≤ criteriaCount)
  { calibratedSignal := smooth
    bpm := if fingerNow then jsOr bpmTemporal bpmSpectral else none
    rrIntervals := rr
    snr := snr
    quality := quality
    isFingerDetected := fingerNow
    gain := ch.gain }

/-- `analyze()`: below 50 buffered samples return the fixed no-data result,
otherwise run the full pipeline. -/
def PPGChannel.analyze (dsp : DSPKernels) (ch : PPGChannel) : PPGOut :=
  if ch.buffer.length < 50 then noDataResult ch.gain
  else ch.analyzeFull dsp

/-- The method-call semantics of `analyze()`: its body assigns to no field of
the receiver, so the state-passing translation returns the receiver unchanged
alongside the result. -/
def PPGChannel.analyzeCall (dsp : DSPKernels) (ch : PPGChannel) : PPGOut × PPGChannel :=
  (ch.analyze dsp, ch)

/-- C1 — for every channel whose buffer holds fewer than 50 samples,
`analyze()` returns exactly the no-data result: `quality = 0`,
`isFingerDetected = false`, `bpm = none`, empty `calibratedSignal` and
`rrIntervals`, `snr = 0`, and the current gain; this holds for every choice
of DSP kernels, and the embedding is a total function (no exception, no NaN). -/
theorem ppg_analyze_short_buffer_no_data
    (dsp : DSPKernels) (ch : PPGChannel) (h : ch.buffer.length < 50) :
    ch.analyze dsp = noDataResult ch.gain := by
  unfold PPGChannel.analyze
  simp [h]

/-- Witness for C1: a freshly constructed channel has 0 < 50 samples and
analyzing it yields the no-data result. -/
theorem ppg_analyze_short_buffer_no_data_witness :
    (mkPPGChannel 0 8 1).buffer.length < 50 ∧
      (mkPPGChannel 0 8 1).analyze dspTrivial = noDataResult 1 := by
  refine ⟨by decide, ?_⟩
  exact ppg_analyze_short_buffer_no_data dspTrivial (mkPPGChannel 0 8 1) (by decide)

/-- A gain-mutating call: `adjustGainRel` or `setGain`. -/
inductive GainOp where
  | adjust (rel : ℚ)
  | set (g : ℚ)

/-- Apply one gain-mutating call to a channel. -/
def applyGainOp (ch : PPGChannel) : GainOp → PPGChannel
  | GainOp.adjust rel => ch.adjustGainRel rel
  | GainOp.set g => ch.setGain g

/-- The clamp `max 0.1 (min 10 x)` always lands in `[0.1, 10]`. -/
theorem gain_clamp_mem (x : ℚ) : 1/10 ≤ max (1/10) (min 10 x) ∧ max (1/10) (min 10 x) ≤ 10 := by
  constructor
  · exact le_max_left _ _
  · exact max_le (by norm_num) (min_le_left _ _)

/-- C5 — `adjustGainRel(delta)` multiplies the gain by `(1 + delta)` and
clamps to `[0.1, 10]`, and for every starting gain in `[0.1, 10]` and every
sequence of `adjustGainRel`/`setGain` calls the gain stays in `[0.1, 10]`
(in particular repeated `adjustGainRel (+10)` never exceeds `10` and repeated
`adjustGainRel (-10)` never drops below `0.1`). -/
theorem ppg_gain_clamped :
    (∀ (ch : PPGChannel) (rel : ℚ),
        (ch.adjustGainRel rel).gain = max (1/10) (min 10 (ch.gain * (1 + rel)))) ∧
    (∀ (ch : PPGChannel) (ops : List GainOp),
        1/10 ≤ ch.gain → ch.gain ≤ 10 →
        1/10 ≤ (ops.foldl applyGainOp ch).gain ∧ (ops.foldl applyGainOp ch).gain ≤ 10) := by
  refine ⟨fun ch rel => rfl, fun ch ops => ?_⟩
  induction ops generalizing ch with
  | nil => exact fun h1 h2 => ⟨h1, h2⟩
  | cons op rest ih =>
    intro _ _
    have hstep : 1/10 ≤ (applyGainOp ch op).gain ∧ (applyGainOp ch op).gain ≤ 10 := by
      cases op with
      | adjust rel => exact gain_clamp_mem _
      | set g => exact gain_clamp_mem _
    exact ih (applyGainOp ch op) hstep.1 hstep.2

/-- Witness for C5: starting from gain 1, ten `adjustGainRel (+10)` calls stay
at most 10. -/
theorem ppg_gain_clamped_witness :
    1/10 ≤ ((List.replicate 10 (GainOp.adjust 10)).foldl applyGainOp (mkPPGChannel 0 8 1)).gain ∧
      ((List.replicate 10 (GainOp.adjust 10)).foldl applyGainOp (mkPPGChannel 0 8 1)).gain ≤ 10 :=
  ppg_gain_clamped.2 (mkPPGChannel 0 8 1) (List.replicate 10 (GainOp.adjust 10))
    (by norm_num [mkPPGChannel]) (by norm_num [mkPPGChannel])

/-- Dropping a prefix by a predicate that the last appended element fails
cannot empty the list. -/
theorem dropWhile_append_singleton_ne_nil {α : Type} (p : α → Bool) (l : List α) (x : α)
    (hx : p x = false) : (l ++ [x]).dropWhile p ≠ [] := by
  induction l with
  | nil => simp [List.dropWhile, hx]
  | cons a t ih =>
    by_cases ha : p a = true
    · simpa [List.dropWhile, ha] using ih
    · simp only [List.cons_append, List.dropWhile]
      rw [Bool.not_eq_true] at ha
      simp [ha]

/-- C9 — after every `pushSample` call on a channel with positive window
length, the buffer is non-empty: the just-pushed sample (at time `t`)
never satisfies the trim condition `t < t - windowSec`. -/
theorem ppg_push_nonempty (ch : PPGChannel) (rawValue tMs : ℚ)
    (hW : 0 < ch.windowSec) : (ch.pushSample rawValue tMs).buffer ≠ [] := by
  unfold PPGChannel.pushSample
  apply dropWhile_append_singleton_ne_nil
  simp only [decide_eq_false_iff_not, not_lt]
  linarith

/-- Witness for C9: pushing one sample onto a fresh channel leaves one sample. -/
theorem ppg_push_nonempty_witness :
    0 < (mkPPGChannel 0 8 1).windowSec ∧ ((mkPPGChannel 0 8 1).pushSample 5 1000).buffer ≠ [] :=
  ⟨by norm_num [mkPPGChannel], ppg_push_nonempty (mkPPGChannel 0 8 1) 5 1000 (by norm_num [mkPPGChannel])⟩

/-- `jsRound` is monotone. -/
theorem jsRound_mono {x y : ℚ} (h : x ≤ y) : jsRound x ≤ jsRound y := by
  unfold jsRound
  exact_mod_cast Int.floor_le_floor (by linarith)

/-- `jsRound` of a value in an integer interval stays in that interval. -/
theorem jsRound_bounds (m n : ℤ) (x : ℚ) (h1 : (m : ℚ) ≤ x) (h2 : x ≤ (n : ℚ)) :
    (m : ℚ) ≤ jsRound x ∧ jsRound x ≤ (n : ℚ) := by
  unfold jsRound
  constructor
  · exact_mod_cast Int.le_floor.mpr (by linarith)
  · have : ⌊x + 1/2⌋ < n + 1 := Int.floor_lt.mpr (by push_cast; linarith)
    exact_mod_cast Int.lt_add_one_iff.mp this

/-- The raw quality sum is at least 10 (its buffer-fullness term alone). -/
theorem qualityScore_ge_ten (s v : ℚ) (l : ℕ) (m : ℚ) : 10 ≤ qualityScore s v l m := by
  unfold qualityScore
  have h1 : (0 : ℚ) ≤ min 40 (max 0 ((s - 1) * 20)) :=
    le_min (by norm_num) (le_max_left _ _)
  have h2 : (0 : ℚ) ≤ (if 3/2 < v then (25 : ℚ) else 0) := by split <;> norm_num
  have h3 : (10 : ℚ) ≤ (if 150 ≤ l then (20 : ℚ) else if 100 ≤ l then 15 else 10) := by
    split
    · norm_num
    · split <;> norm_num
  have h4 : (0 : ℚ) ≤ min 15 (max 0 ((m - 1/10000) * 50000)) :=
    le_min (by norm_num) (le_max_left _ _)
  linarith

/-- The reported quality always lies in `[0, 100]`. -/
theorem reportedQuality_range (s v : ℚ) (l : ℕ) (m : ℚ) :
    0 ≤ reportedQuality s v l m ∧ reportedQuality s v l m ≤ 100 := by
  unfold reportedQuality
  have h10 := qualityScore_ge_ten s v l m
  have hlo : (0 : ℚ) ≤ min 100 (qualityScore s v l m) := le_min (by norm_num) (by linarith)
  have hhi : min 100 (qualityScore s v l m) ≤ (100 : ℚ) := min_le_left _ _
  have := jsRound_bounds 0 100 _ (by exact_mod_cast hlo) (by exact_mod_cast hhi)
  exact_mod_cast this

/-- Monotonicity of the reported quality in the spectral SNR factor. -/
theorem reportedQuality_mono_snr {s s' : ℚ} (v : ℚ) (l : ℕ) (m : ℚ) (h : s ≤ s') :
    reportedQuality s v l m ≤ reportedQuality s' v l m := by
  unfold reportedQuality qualityScore
  apply jsRound_mono
  apply min_le_min le_rfl
  have : max 0 ((s - 1) * 20) ≤ max 0 ((s' - 1) * 20) :=
    max_le_max le_rfl (by linarith)
  have := min_le_min (le_refl (40 : ℚ)) this
  linarith

/-- Monotonicity of the reported quality in the variance factor. -/
theorem reportedQuality_mono_variance (s : ℚ) {v v' : ℚ} (l : ℕ) (m : ℚ) (h : v ≤ v') :
    reportedQuality s v l m ≤ reportedQuality s v' l m := by
  unfold reportedQuality qualityScore
  apply jsRound_mono
  apply min_le_min le_rfl
  have : (if 3/2 < v then (25 : ℚ) else 0) ≤ (if 3/2 < v' then (25 : ℚ) else 0) := by
    by_cases hv : (3/2 : ℚ) < v
    · rw [if_pos hv, if_pos (lt_of_lt_of_le hv h)]
    · rw [if_neg hv]
      split <;> norm_num
  linarith

/-- Monotonicity of the reported quality in the buffer-fullness factor. -/
theorem reportedQuality_mono_buflen (s v : ℚ) {l l' : ℕ} (m : ℚ) (h : l ≤ l') :
    reportedQuality s v l m ≤ reportedQuality s v l' m := by
  unfold reportedQuality qualityScore
  apply jsRound_mono
  apply min_le_min le_rfl
  have : (if 150 ≤ l then (20 : ℚ) else if 100 ≤ l then 15 else 10)
      ≤ (if 150 ≤ l' then (20 : ℚ) else if 100 ≤ l' then 15 else 10) := by
    by_cases h150 : 150 ≤ l
    · rw [if_pos h150, if_pos (le_trans h150 h)]
    · by_cases h150' : 150 ≤ l'
      · rw [if_neg h150, if_pos h150']
        split <;> norm_num
      · rw [if_neg h150, if_neg h150']
        by_cases h100 : 100 ≤ l
        · rw [if_pos h100, if_pos (le_trans h100 h)]
        · rw [if_neg h100]
          split <;> norm_num
  linarith

/-- Monotonicity of the reported quality in the raw peak-power factor. -/
theorem reportedQuality_mono_power (s v : ℚ) (l : ℕ) {m m' : ℚ} (h : m ≤ m') :
    reportedQuality s v l m ≤ reportedQuality s v l m' := by
  unfold reportedQuality qualityScore
  apply jsRound_mono
  apply min_le_min le_rfl
  have : max 0 ((m - 1/10000) * 50000) ≤ max 0 ((m' - 1/10000) * 50000) :=
    max_le_max le_rfl (by linarith)
  have := min_le_min (le_refl (15 : ℚ)) this
  linarith

/-- The quality field of the full-analysis branch is the reported quality of
its computed factors. -/
theorem analyzeFull_quality_shape (dsp : DSPKernels) (ch : PPGChannel) :
    ∃ s v m, (ch.analyzeFull dsp).quality = reportedQuality s v ch.buffer.length m :=
  ⟨_, _, _, rfl⟩

/-- C6 — the composite per-channel quality score of `analyze()` is monotone
non-decreasing in each underlying factor (spectral SNR, variance, buffer
fullness, raw peak power) and saturates at 100: for every buffer state and
every choice of DSP kernels the returned quality lies in `[0, 100]`. -/
theorem ppg_quality_monotone_saturates :
    (∀ (s s' v : ℚ) (l : ℕ) (m : ℚ), s ≤ s' →
        reportedQuality s v l m ≤ reportedQuality s' v l m) ∧
    (∀ (s v v' : ℚ) (l : ℕ) (m : ℚ), v ≤ v' →
        reportedQuality s v l m ≤ reportedQuality s v' l m) ∧
    (∀ (s v : ℚ) (l l' : ℕ) (m : ℚ), l ≤ l' →
        reportedQuality s v l m ≤ reportedQuality s v l' m) ∧
    (∀ (s v : ℚ) (l : ℕ) (m m' : ℚ), m ≤ m' →
        reportedQuality s v l m ≤ reportedQuality s v l m') ∧
    (∀ (dsp : DSPKernels) (ch : PPGChannel),
        0 ≤ (ch.analyze dsp).quality ∧ (ch.analyze dsp).quality ≤ 100) := by
  refine ⟨fun s s' v l m h => reportedQuality_mono_snr v l m h,
    fun s v v' l m h => reportedQuality_mono_variance s l m h,
    fun s v l l' m h => reportedQuality_mono_buflen s v m h,
    fun s v l m m' h => reportedQuality_mono_power s v l h,
    fun dsp ch => ?_⟩
  unfold PPGChannel.analyze
  split
  · simp [noDataResult]
  · obtain ⟨s, v, m, hq⟩ := analyzeFull_quality_shape dsp ch
    rw [hq]
    exact reportedQuality_range s v ch.buffer.length m

/-- Witness for C6: concrete monotonicity instances and a concrete range
instance, all obtained from the theorem. -/
theorem ppg_quality_monotone_saturates_witness :
    reportedQuality 1 2 60 0 ≤ reportedQuality 3 2 60 0 ∧
    reportedQuality 1 0 60 0 ≤ reportedQuality 1 2 60 0 ∧
    reportedQuality 1 2 60 0 ≤ reportedQuality 1 2 160 0 ∧
    reportedQuality 1 2 60 0 ≤ reportedQuality 1 2 60 1 ∧
    (0 ≤ ((mkPPGChannel 0 8 1).analyze dspTrivial).quality ∧
      ((mkPPGChannel 0 8 1).analyze dspTrivial).quality ≤ 100) :=
  ⟨ppg_quality_monotone_saturates.1 1 3 2 60 0 (by norm_num),
    ppg_quality_monotone_saturates.2.1 1 0 2 60 0 (by norm_num),
    ppg_quality_monotone_saturates.2.2.1 1 2 60 160 0 (by norm_num),
    ppg_quality_monotone_saturates.2.2.2.1 1 2 60 0 1 (by norm_num),
    ppg_quality_monotone_saturates.2.2.2.2 dspTrivial (mkPPGChannel 0 8 1)⟩

/-- C7 — `analyze()` is a pure function of the current buffer state: the
method body assigns to no field of the receiver, so its state-passing
translation returns the channel unchanged, and two consecutive calls with no
intervening mutation return equal results. -/
theorem ppg_analyze_pure (dsp : DSPKernels) (ch : PPGChannel) :
    (PPGChannel.analyzeCall dsp ch).2 = ch ∧
      (PPGChannel.analyzeCall dsp (PPGChannel.analyzeCall dsp ch).2).1
        = (PPGChannel.analyzeCall dsp ch).1 :=
  ⟨rfl, rfl⟩

/-- One-sided lower bound for `jsRound`. -/
theorem jsRound_ge (m : ℤ) (x : ℚ) (h : (m : ℚ) ≤ x) : (m : ℚ) ≤ jsRound x := by
  unfold jsRound
  exact_mod_cast Int.le_floor.mpr (by linarith)

/-- `a || b` on `number | null` is never the value `0` when `b` is not `0`:
a falsy `a` (including `0`) falls through to `b`, and a truthy `a` is not `0`. -/
theorem jsOr_ne_some_zero (a b : Option ℚ) (hb : b ≠ some 0) : jsOr a b ≠ some 0 := by
  unfold jsOr
  split
  · next h =>
    cases a with
    | none => simp [jsTruthy] at h
    | some v =>
      simp only [jsTruthy, decide_eq_true_eq] at h
      intro hv
      rw [Option.some.injEq] at hv
      exact h hv
  · exact hb

/-- The left fold of `max` over a list lands in the list or at the seed. -/
theorem foldl_max_mem (t : List ℚ) : ∀ a : ℚ, t.foldl max a ∈ a :: t := by
  induction t with
  | nil => intro a; simp
  | cons h tl ih =>
    intro a
    simp only [List.foldl_cons]
    have hmem := ih (max a h)
    rcases List.mem_cons.mp hmem with h1 | h1
    · rw [h1]
      rcases max_choice a h with hm | hm <;> rw [hm] <;> simp
    · simp [h1]

/-- `Math.max(...l)` of a non-empty list is an element of the list. -/
theorem jsMax_mem (l : List ℚ) (h : l ≠ []) : jsMax l ∈ l := by
  cases l with
  | nil => exact absurd rfl h
  | cons a t => exact foldl_max_mem t a

/-- Every point of the 0.8–4.0 Hz sweep grid is at least 0.8. -/
theorem linspace_sweep_ge {x : ℚ} (hx : x ∈ linspace (4/5) 4 200) : 4/5 ≤ x := by
  unfold linspace at hx
  obtain ⟨i, _, rfl⟩ := List.mem_map.mp hx
  have h0 : (0 : ℚ) ≤ (4 - 4/5) * ((i : ℚ) / ((200 : ℚ) - 1)) :=
    mul_nonneg (by norm_num) (div_nonneg (Nat.cast_nonneg i) (by norm_num))
  linarith

/-- The spectral peak frequency — the sweep-grid point at the index of the
maximal narrow-band power — is at least 0.8 Hz, whatever the power values. -/
theorem peakFreq_ge (g : ℚ → ℚ) :
    4/5 ≤ (linspace (4/5) 4 200).getD
      (((linspace (4/5) 4 200).map g).indexOf (jsMax ((linspace (4/5) 4 200).map g))) 0 := by
  have hlen : (linspace (4/5) 4 200).length = 200 := by
    unfold linspace
    rw [List.length_map, List.length_range]
  have hne : (linspace (4/5) 4 200).map g ≠ [] := by
    intro hcon
    have h0 := congrArg List.length hcon
    rw [List.length_map, hlen] at h0
    simp at h0
  have hmem := jsMax_mem _ hne
  have hidx := List.indexOf_lt_length.mpr hmem
  rw [List.length_map] at hidx
  rw [List.getD_eq_getElem _ _ hidx]
  exact linspace_sweep_ge (List.getElem_mem hidx)

/-- The detection flag and bpm field of the full-analysis branch, exposing the
structure the bpm value is assembled from: `bpmTemporal || bpmSpectral` when
detected, `null` otherwise, with `bpmSpectral = round(peakFreq * 60)` gated on
the power floor. -/
theorem analyzeFull_bpm_shape (dsp : DSPKernels) (ch : PPGChannel) :
    ∃ (bt : Option ℚ) (c : Bool) (g : ℚ → ℚ),
      (ch.analyzeFull dsp).isFingerDetected = c ∧
      (ch.analyzeFull dsp).bpm =
        (if c then
          jsOr bt (if 1/100000 < jsMax ((linspace (4/5) 4 200).map g) then
            some (jsRound ((linspace (4/5) 4 200).getD
              (((linspace (4/5) 4 200).map g).indexOf
                (jsMax ((linspace (4/5) 4 200).map g))) 0 * 60))
          else none)
        else none) :=
  ⟨_, _, _, rfl, rfl⟩

/-- C10 — in every `ChannelResult` produced by `analyze()`, if
`isFingerDetected` is false then `bpm` is `none`, and `bpm` is never `0`:
a non-null bpm is only emitted in the detected state. -/
theorem ppg_bpm_only_when_detected (dsp : DSPKernels) (ch : PPGChannel) :
    ((ch.analyze dsp).isFingerDetected = false → (ch.analyze dsp).bpm = none) ∧
      (ch.analyze dsp).bpm ≠ some 0 := by
  unfold PPGChannel.analyze
  split
  · exact ⟨fun _ => rfl, by simp [noDataResult]⟩
  · obtain ⟨bt, c, g, hdet, hbpm⟩ := analyzeFull_bpm_shape dsp ch
    rw [hdet, hbpm]
    constructor
    · intro hc
      rw [hc]
      simp
    · cases c with
      | false => simp
      | true =>
        simp only [if_true]
        apply jsOr_ne_some_zero
        split
        · have hpf := peakFreq_ge g
          have h48 : (48 : ℚ) ≤ jsRound ((linspace (4/5) 4 200).getD
              (((linspace (4/5) 4 200).map g).indexOf
                (jsMax ((linspace (4/5) 4 200).map g))) 0 * 60) := by
            have := jsRound_ge 48 _ (by linarith : (48 : ℚ) ≤ _ * 60)
            exact this
          intro hcon
          rw [Option.some.injEq] at hcon
          rw [hcon] at h48
          norm_num at h48
        · simp

/-- Witness for C10: on a fresh (empty-buffer) channel the flag is false, and
the theorem yields `bpm = none` and `bpm ≠ some 0` there. -/
theorem ppg_bpm_only_when_detected_witness :
    ((mkPPGChannel 0 8 1).analyze dspTrivial).bpm = none ∧
      ((mkPPGChannel 0 8 1).analyze dspTrivial).bpm ≠ some 0 :=
  ⟨(ppg_bpm_only_when_detected dspTrivial (mkPPGChannel 0 8 1)).1 rfl,
    (ppg_bpm_only_when_detected dspTrivial (mkPPGChannel 0 8 1)).2⟩

/-- One per-channel result as consumed and re-emitted by
`MultiChannelManager.analyzeAll` (the optimised revision). -/
structure ChannelResult where
  channelId : ℕ
  calibratedSignal : List ℚ
  bpm : Option ℚ
  rrIntervals : List ℚ
  snr : ℚ
  quality : ℚ
  isFingerDetected : Bool
  gain : ℚ
deriving DecidableEq

/-- Ensemble-level mutable state of `MultiChannelManager`: the debounced
finger flag, the stable/unstable frame counters, the time of the last global
toggle, the coverage/motion exponential moving averages, the channel count
and the timestamp of the last pushed sample. -/
structure MCState where
  fingerState : Bool
  fingerStableCount : ℕ
  fingerUnstableCount : ℕ
  lastGlobalToggle : ℚ
  coverageEma : Option ℚ
  motionEma : Option ℚ
  n : ℕ
  lastTimestamp : ℚ
deriving DecidableEq

/-- The `MultiChannelManager` constructor state for `n` channels. -/
def mkMCState (n : ℕ) : MCState :=
  ⟨false, 0, 0, 0, none, none, n, 0⟩

/-- Consensus constants of the optimised manager:
`FRAMES_TO_CONFIRM_FINGER`. -/
def framesToConfirmFinger : ℕ := 7

/-- `FRAMES_TO_LOSE_FINGER`. -/
def framesToLoseFinger : ℕ := 30

/-- `MIN_QUALITY_THRESHOLD`. -/
def minQualityThreshold : ℚ := 20

/-- The aggregated result of one `analyzeAll` call. -/
structure MultiChannelResult where
  timestamp : ℚ
  channels : List ChannelResult
  aggregatedBPM : Option ℚ
  aggregatedQuality : ℚ
  fingerDetected : Bool
deriving DecidableEq

/-- The BPM-candidate collection of `analyzeAll`: for each channel result with
`isFingerDetected`, keep a truthy `bpm` within `[50, 160]` from a channel with
quality at least `MIN_QUALITY_THRESHOLD`. -/
def collectValidBPMs (results : List ChannelResult) : List ℚ :=
  (results.filter (fun r =>
      r.isFingerDetected && jsTruthy r.bpm && decide (50 ≤ r.bpm.getD 0)
        && decide (r.bpm.getD 0 ≤ 160) && decide (minQualityThreshold ≤ r.quality))).map
    (fun r => r.bpm.getD 0)

/-- The IQR outlier filter of `aggregateBPMAdvanced`: sort ascending, take
`Q1 = sorted[⌊n/4⌋]` and `Q3 = sorted[⌊3n/4⌋]`, and keep the sorted values
inside `[Q1 - 1.5·IQR, Q3 + 1.5·IQR]`. -/
def iqrFilter (validBPMs : List ℚ) : List ℚ :=
  let sorted := sortAsc validBPMs
  let n := validBPMs.length
  let q1 := sorted.getD (n / 4) 0
  let q3 := sorted.getD (3 * n / 4) 0
  let iqr := q3 - q1
  sorted.filter (fun b => decide (q1 - 3/2 * iqr ≤ b) && decide (b ≤ q3 + 3/2 * iqr))

/-- `aggregateBPMAdvanced(results, validBPMs)`: with no valid candidate, fall
back to the plain mean of any in-range bpm among the channel results; with one
candidate return it; otherwise drop IQR outliers, then return the
quality-weighted mean over the channels whose bpm survived (falling back to
the median of the sorted candidates if the filter emptied the set, and to the
plain mean of the survivors if no channel qualifies for weighting). -/
def aggregateBPMAdvanced (results : List ChannelResult) (validBPMs : List ℚ) : Option ℚ :=
  match validBPMs with
  | [] =>
    let fallbackBPMs := (results.filter (fun r =>
        jsTruthy r.bpm && decide (50 ≤ r.bpm.getD 0) && decide (r.bpm.getD 0 ≤ 160))).map
      (fun r => r.bpm.getD 0)
    if fallbackBPMs = [] then none
    else some (jsRound (fallbackBPMs.sum / (fallbackBPMs.length : ℚ)))
  | [b] => some b
  | _ =>
    let filtered := iqrFilter validBPMs
    if filtered = [] then some ((sortAsc validBPMs).getD (validBPMs.length / 2) 0)
    else
      let qw := results.filter (fun r =>
        r.isFingerDetected && jsTruthy r.bpm && decide (r.bpm.getD 0 ∈ filtered)
          && decide (minQualityThreshold ≤ r.quality))
      if qw = [] then some (jsRound (filtered.sum / (filtered.length : ℚ)))
      else
        let totalQuality := (qw.map (fun r => r.quality)).sum
        let weightedSum := (qw.map (fun r => r.bpm.getD 0 * (r.quality / totalQuality))).sum
        some (jsRound weightedSum)

/-- `aggregateQualityAdvanced(results, detectedChannels)` evaluated against
the post-debounce ensemble state. -/
def aggregateQualityAdvanced (results : List ChannelResult) (detectedChannels : ℕ)
    (s : MCState) : ℚ :=
  if results = [] then 0
  else
    let totalQuality := (results.map (fun r => r.quality)).sum
    let avgQuality := totalQuality / (results.length : ℚ)
    let detectionBonus := min 20 ((detectedChannels : ℚ) * 4)
    let stabilityBonus : ℚ :=
      if s.fingerState ∧ framesToConfirmFinger ≤ s.fingerStableCount then 10 else 0
    let instabilityPenalty : ℚ :=
      if framesToLoseFinger / 2 < s.fingerUnstableCount
      then min 15 ((s.fingerUnstableCount : ℚ) * 2) else 0
    jsRound (min 100 (max 0 (avgQuality + detectionBonus + stabilityBonus - instabilityPenalty)))

/-- The debounce update of `analyzeAll` (the optimised revision): on a
qualifying frame bump the stable counter and confirm after
`FRAMES_TO_CONFIRM_FINGER` frames; on a pre-detection frame confirm after
`FRAMES_TO_CONFIRM_FINGER + 3`; on a disqualifying frame bump the unstable
counter (decaying the stable counter once more than 3 frames are unstable)
and drop detection after `FRAMES_TO_LOSE_FINGER` unstable frames. -/
def ensembleDebounce (s : MCState) (globalCondition preCondition : Bool) (now : ℚ) : MCState :=
  if globalCondition then
    let s1 := { s with fingerStableCount := s.fingerStableCount + 1, fingerUnstableCount := 0 }
    if framesToConfirmFinger ≤ s1.fingerStableCount then
      { s1 with fingerState := true, lastGlobalToggle := now }
    else s1
  else if preCondition then
    let s1 := { s with fingerStableCount := s.fingerStableCount + 1, fingerUnstableCount := 0 }
    if framesToConfirmFinger + 3 ≤ s1.fingerStableCount then
      { s1 with fingerState := true, lastGlobalToggle := now }
    else s1
  else
    let u := s.fingerUnstableCount + 1
    let st := if 3 < u then s.fingerStableCount - 1 else s.fingerStableCount
    let s1 := { s with fingerUnstableCount := u, fingerStableCount := st }
    if framesToLoseFinger ≤ u then
      { s1 with fingerState := false, fingerStableCount := 0, lastGlobalToggle := now }
    else s1

/-- One frame of input to `analyzeAll`: the per-channel analysis results of
this frame together with the frame-level coverage ratio, frame difference and
the injected wall-clock reading (`Date.now()`). -/
structure MCFrame where
  results : List ChannelResult
  coverage : ℚ
  frameDiff : ℚ
  now : ℚ

/-- The updated coverage EMA (α = 0.15) for one frame. -/
def covEmaNext (s : MCState) (f : MCFrame) : ℚ :=
  match s.coverageEma with
  | none => f.coverage
  | some e => e * (17/20) + f.coverage * (3/20)

/-- The updated motion EMA (α = 0.15) for one frame. -/
def motEmaNext (s : MCState) (f : MCFrame) : ℚ :=
  match s.motionEma with
  | none => f.frameDiff
  | some e => e * (17/20) + f.frameDiff * (3/20)

/-- The `globalCondition` of one frame: channel consensus
(`≥ ⌈n · MIN_CONSENSUS_RATIO⌉` detected), mean detected quality at least
`MIN_QUALITY_THRESHOLD`, smoothed coverage at least `MIN_COVERAGE_RATIO` and
smoothed motion at most `MAX_FRAME_DIFF`. -/
def mcGlobalCondition (s : MCState) (f : MCFrame) : Bool :=
  let detectedChannels := (f.results.filter (fun r => r.isFingerDetected)).length
  let totalQuality := ((f.results.filter (fun r => r.isFingerDetected)).map
    (fun r => r.quality)).sum
  let coverageOk := decide (7/50 ≤ covEmaNext s f)
  let motionOk := decide (motEmaNext s f ≤ 28)
  let consensusOk := decide (Nat.ceil ((s.n : ℚ) * (8/25)) ≤ detectedChannels)
  let avgQuality := if 0 < detectedChannels then totalQuality / (detectedChannels : ℚ) else 0
  let qualityOk := decide (0 < detectedChannels) && decide (minQualityThreshold ≤ avgQuality)
  consensusOk && qualityOk && coverageOk && motionOk

/-- The `preCondition` of one frame: smoothed coverage and motion acceptable. -/
def mcPreCondition (s : MCState) (f : MCFrame) : Bool :=
  decide (7/50 ≤ covEmaNext s f) && decide (motEmaNext s f ≤ 28)

/-- One `analyzeAll` call of the optimised manager, as a state transformer
over the ensemble state given the per-channel results of the frame: update
the EMAs, evaluate the consensus conditions, run the debounce, and emit the
aggregated result.  (The adaptive gain feedback acts on the channel objects,
not on the ensemble state, and is embedded separately at channel level via
`PPGChannel.adjustGainRel`.) -/
def analyzeAllStep (s : MCState) (f : MCFrame) : MCState × MultiChannelResult :=
  let sEma := { s with coverageEma := some (covEmaNext s f),
                       motionEma := some (motEmaNext s f) }
  let global := mcGlobalCondition s f
  let pre := mcPreCondition s f
  let s2 := ensembleDebounce sEma global pre f.now
  let detectedChannels := (f.results.filter (fun r => r.isFingerDetected)).length
  let validBPMs := collectValidBPMs f.results
  let aggregatedBPM := aggregateBPMAdvanced f.results validBPMs
  let aggregatedQuality := aggregateQualityAdvanced f.results detectedChannels s2
  (s2, { timestamp := s.lastTimestamp
         channels := f.results
         aggregatedBPM := aggregatedBPM
         aggregatedQuality := aggregatedQuality
         fingerDetected := s2.fingerState })

/-- The state part of iterated `analyzeAll` calls. -/
def runAnalyzeAll (s : MCState) (frames : List MCFrame) : MCState :=
  frames.foldl (fun st f => (analyzeAllStep st f).1) s

/-- Folding a list of disqualifying frames (both conditions false) through the
debounce, with an arbitrary clock reading per frame. -/
def runDisq (s : MCState) (ts : List ℚ) : MCState :=
  ts.foldl (fun st t => ensembleDebounce st false false t) s

/-- Feeding a disqualifying frame while fewer than `FRAMES_TO_LOSE_FINGER`
frames are unstable keeps the flag and bumps the unstable counter. -/
theorem runDisq_keeps (ts : List ℚ) : ∀ s : MCState, s.fingerState = true →
    s.fingerUnstableCount + ts.length < framesToLoseFinger →
    (runDisq s ts).fingerState = true ∧
      (runDisq s ts).fingerUnstableCount = s.fingerUnstableCount + ts.length := by
  induction ts with
  | nil => intro s h1 _; exact ⟨h1, by simp [runDisq]⟩
  | cons t ts ih =>
    intro s h1 h2
    have hlen : s.fingerUnstableCount + 1 + ts.length < framesToLoseFinger := by
      simp only [List.length_cons] at h2
      omega
    have hne : ¬ (framesToLoseFinger ≤ s.fingerUnstableCount + 1) := by omega
    have hstep : (ensembleDebounce s false false t).fingerState = true ∧
        (ensembleDebounce s false false t).fingerUnstableCount = s.fingerUnstableCount + 1 := by
      unfold ensembleDebounce
      simp [hne, h1]
    have hrec := ih (ensembleDebounce s false false t) hstep.1 (by rw [hstep.2]; exact hlen)
    have hfold : runDisq s (t :: ts) = runDisq (ensembleDebounce s false false t) ts := by
      simp [runDisq]
    rw [hfold]
    rw [hrec.2, hstep.2]
    exact ⟨hrec.1, by simp only [List.length_cons]; omega⟩

/-- A disqualifying frame that takes the unstable counter to
`FRAMES_TO_LOSE_FINGER` drops the flag. -/
theorem disq_step_flips (s : MCState) (t : ℚ)
    (h : framesToLoseFinger ≤ s.fingerUnstableCount + 1) :
    (ensembleDebounce s false false t).fingerState = false := by
  unfold ensembleDebounce
  simp [h]

/-- Whenever the debounce turns the flag from false to true, the unstable
counter of the new state is zero. -/
theorem debounce_toggle_true_unstable_zero (s : MCState) (g p : Bool) (t : ℚ)
    (h1 : s.fingerState = false) (h2 : (ensembleDebounce s g p t).fingerState = true) :
    (ensembleDebounce s g p t).fingerUnstableCount = 0 := by
  unfold ensembleDebounce at h2 ⊢
  cases g with
  | true =>
    by_cases hc : framesToConfirmFinger ≤ s.fingerStableCount + 1 <;> simp [hc]
  | false =>
    cases p with
    | true =>
      by_cases hc : framesToConfirmFinger + 3 ≤ s.fingerStableCount + 1 <;> simp [hc]
    | false =>
      by_cases hc : framesToLoseFinger ≤ s.fingerUnstableCount + 1 <;>
        simp [hc, h1] at h2

/-- Shorthand for ensemble states of the 6-channel manager with zero toggle
time and timestamp (the shape preserved along the counterexample runs). -/
def mcS (b : Bool) (st u : ℕ) (e1 e2 : Option ℚ) : MCState :=
  ⟨b, st, u, 0, e1, e2, 6, 0⟩

/-- A concrete per-channel result: detected, quality 80, bpm 72. -/
def ceChannelResult : ChannelResult := ⟨0, [], some 72, [], 5, 80, true, 1⟩

/-- Six detected channels, as produced by one frame of the 6-channel manager. -/
def ceChannels : List ChannelResult :=
  [ceChannelResult, ceChannelResult, ceChannelResult,
    ceChannelResult, ceChannelResult, ceChannelResult]

/-- A qualifying frame: six detected channels, coverage 0.9, no motion. -/
def ceGoodFrame : MCFrame := ⟨ceChannels, 9/10, 0, 0⟩
/-- The first disqualifying frame: frame difference 10000 lifts the motion
EMA from 0 to 1500, far above `MAX_FRAME_DIFF`. -/
def ceBadFrame1 : MCFrame := ⟨ceChannels, 9/10, 10000, 0⟩
/-- Subsequent disqualifying frames: frame difference 1500 holds the motion
EMA at exactly 1500 (its fixed point). -/
def ceBadFrame2 : MCFrame := ⟨ceChannels, 9/10, 1500, 0⟩

/-- The consensus threshold of the 6-channel manager is 2 detected channels. -/
theorem ceil_consensus_six : Nat.ceil ((6 : ℚ) * (8/25)) = 2 := by
  rw [Nat.ceil_eq_iff] <;> norm_num

/-- The detected-channel count of the concrete frame results. -/
theorem ceChannels_detected :
    (ceChannels.filter (fun r => r.isFingerDetected)).length = 6 := rfl

/-- The summed quality of the detected channels of the concrete frame. -/
theorem ceChannels_quality :
    (((ceChannels.filter (fun r => r.isFingerDetected)).map (fun r => r.quality)).sum
      : ℚ) = 480 := by
  norm_num [ceChannels, ceChannelResult, List.filter, List.sum_cons]

example (b : Bool) (st u : ℕ) :
    mcGlobalCondition (mcS b st u (some (9/10)) (some 0)) ceGoodFrame = true := by
  unfold mcGlobalCondition
  rw [show covEmaNext (mcS b st u (some (9/10)) (some 0)) ceGoodFrame = 9/10 by
        show (9/10 : ℚ) * (17/20) + ceGoodFrame.coverage * (3/20) = 9/10
        norm_num [ceGoodFrame]]
  rw [show motEmaNext (mcS b st u (some (9/10)) (some 0)) ceGoodFrame = 0 by
        show (0 : ℚ) * (17/20) + ceGoodFrame.frameDiff * (3/20) = 0
        norm_num [ceGoodFrame]]
  norm_num [ceChannels_detected, ceChannels_quality, ceil_consensus_six, mcS,
    ceGoodFrame, minQualityThreshold]

/-- Coverage EMA is a fixed point at 0.9 under qualifying frames. -/
theorem covEma_good (b : Bool) (st u : ℕ) :
    covEmaNext (mcS b st u (some (9/10)) (some 0)) ceGoodFrame = 9/10 := by
  show (9/10 : ℚ) * (17/20) + ceGoodFrame.coverage * (3/20) = 9/10
  norm_num [ceGoodFrame]

/-- Motion EMA is a fixed point at 0 under qualifying frames. -/
theorem motEma_good (b : Bool) (st u : ℕ) :
    motEmaNext (mcS b st u (some (9/10)) (some 0)) ceGoodFrame = 0 := by
  show (0 : ℚ) * (17/20) + ceGoodFrame.frameDiff * (3/20) = 0
  norm_num [ceGoodFrame]

/-- Qualifying frames satisfy the global condition. -/
theorem good_global (b : Bool) (st u : ℕ) :
    mcGlobalCondition (mcS b st u (some (9/10)) (some 0)) ceGoodFrame = true := by
  unfold mcGlobalCondition
  rw [covEma_good, motEma_good]
  norm_num [ceChannels_detected, ceChannels_quality, ceil_consensus_six, mcS,
    ceGoodFrame, minQualityThreshold]

/-- Qualifying frames satisfy the pre-detection condition. -/
theorem good_pre (b : Bool) (st u : ℕ) :
    mcPreCondition (mcS b st u (some (9/10)) (some 0)) ceGoodFrame = true := by
  unfold mcPreCondition
  rw [covEma_good, motEma_good]
  norm_num

/-- One qualifying frame reduces to the debounce with both conditions true. -/
theorem good_state_step (b : Bool) (st u : ℕ) :
    (analyzeAllStep (mcS b st u (some (9/10)) (some 0)) ceGoodFrame).1
      = ensembleDebounce (mcS b st u (some (9/10)) (some 0)) true true 0 := by
  show ensembleDebounce
      { mcS b st u (some (9/10)) (some 0) with
          coverageEma := some (covEmaNext (mcS b st u (some (9/10)) (some 0)) ceGoodFrame),
          motionEma := some (motEmaNext (mcS b st u (some (9/10)) (some 0)) ceGoodFrame) }
      (mcGlobalCondition (mcS b st u (some (9/10)) (some 0)) ceGoodFrame)
      (mcPreCondition (mcS b st u (some (9/10)) (some 0)) ceGoodFrame)
      ceGoodFrame.now
    = ensembleDebounce (mcS b st u (some (9/10)) (some 0)) true true 0
  rw [covEma_good, motEma_good, good_global, good_pre]
  rfl

/-- The first qualifying frame (EMAs unset) seeds the EMAs and qualifies. -/
theorem good_state_step0 :
    (analyzeAllStep (mkMCState 6) ceGoodFrame).1
      = ensembleDebounce (mcS false 0 0 (some (9/10)) (some 0)) true true 0 := by
  have hcov : covEmaNext (mkMCState 6) ceGoodFrame = 9/10 := by
    show ceGoodFrame.coverage = 9/10
    norm_num [ceGoodFrame]
  have hmot : motEmaNext (mkMCState 6) ceGoodFrame = 0 := by
    show ceGoodFrame.frameDiff = 0
    norm_num [ceGoodFrame]
  have hglob : mcGlobalCondition (mkMCState 6) ceGoodFrame = true := by
    unfold mcGlobalCondition
    rw [hcov, hmot]
    norm_num [ceChannels_detected, ceChannels_quality, ceil_consensus_six, mkMCState,
      ceGoodFrame, minQualityThreshold]
  have hpre : mcPreCondition (mkMCState 6) ceGoodFrame = true := by
    unfold mcPreCondition
    rw [hcov, hmot]
    norm_num
  show ensembleDebounce
      { mkMCState 6 with
          coverageEma := some (covEmaNext (mkMCState 6) ceGoodFrame),
          motionEma := some (motEmaNext (mkMCState 6) ceGoodFrame) }
      (mcGlobalCondition (mkMCState 6) ceGoodFrame)
      (mcPreCondition (mkMCState 6) ceGoodFrame)
      ceGoodFrame.now
    = ensembleDebounce (mcS false 0 0 (some (9/10)) (some 0)) true true 0
  rw [hcov, hmot, hglob, hpre]
  rfl

/-- The first disqualifying frame fails both conditions and moves the motion
EMA to 1500. -/
theorem bad1_step (b : Bool) (st u : ℕ) :
    mcGlobalCondition (mcS b st u (some (9/10)) (some 0)) ceBadFrame1 = false ∧
    mcPreCondition (mcS b st u (some (9/10)) (some 0)) ceBadFrame1 = false ∧
    (analyzeAllStep (mcS b st u (some (9/10)) (some 0)) ceBadFrame1).1
      = ensembleDebounce (mcS b st u (some (9/10)) (some 1500)) false false 0 := by
  have hcov : covEmaNext (mcS b st u (some (9/10)) (some 0)) ceBadFrame1 = 9/10 := by
    show (9/10 : ℚ) * (17/20) + ceBadFrame1.coverage * (3/20) = 9/10
    norm_num [ceBadFrame1]
  have hmot : motEmaNext (mcS b st u (some (9/10)) (some 0)) ceBadFrame1 = 1500 := by
    show (0 : ℚ) * (17/20) + ceBadFrame1.frameDiff * (3/20) = 1500
    norm_num [ceBadFrame1]
  have hglob : mcGlobalCondition (mcS b st u (some (9/10)) (some 0)) ceBadFrame1 = false := by
    unfold mcGlobalCondition
    rw [hcov, hmot]
    norm_num
  have hpre : mcPreCondition (mcS b st u (some (9/10)) (some 0)) ceBadFrame1 = false := by
    unfold mcPreCondition
    rw [hcov, hmot]
    norm_num
  refine ⟨hglob, hpre, ?_⟩
  show ensembleDebounce
      { mcS b st u (some (9/10)) (some 0) with
          coverageEma := some (covEmaNext (mcS b st u (some (9/10)) (some 0)) ceBadFrame1),
          motionEma := some (motEmaNext (mcS b st u (some (9/10)) (some 0)) ceBadFrame1) }
      (mcGlobalCondition (mcS b st u (some (9/10)) (some 0)) ceBadFrame1)
      (mcPreCondition (mcS b st u (some (9/10)) (some 0)) ceBadFrame1)
      ceBadFrame1.now
    = ensembleDebounce (mcS b st u (some (9/10)) (some 1500)) false false 0
  rw [hcov, hmot, hglob, hpre]
  rfl

/-- A motion-1500 frame at a motion-EMA-1500 state fails both conditions and
keeps the EMAs fixed. -/
theorem bad2_step (b : Bool) (st u : ℕ) :
    mcGlobalCondition (mcS b st u (some (9/10)) (some 1500)) ceBadFrame2 = false ∧
    mcPreCondition (mcS b st u (some (9/10)) (some 1500)) ceBadFrame2 = false ∧
    (analyzeAllStep (mcS b st u (some (9/10)) (some 1500)) ceBadFrame2).1
      = ensembleDebounce (mcS b st u (some (9/10)) (some 1500)) false false 0 := by
  have hcov : covEmaNext (mcS b st u (some (9/10)) (some 1500)) ceBadFrame2 = 9/10 := by
    show (9/10 : ℚ) * (17/20) + ceBadFrame2.coverage * (3/20) = 9/10
    norm_num [ceBadFrame2]
  have hmot : motEmaNext (mcS b st u (some (9/10)) (some 1500)) ceBadFrame2 = 1500 := by
    show (1500 : ℚ) * (17/20) + ceBadFrame2.frameDiff * (3/20) = 1500
    norm_num [ceBadFrame2]
  have hglob : mcGlobalCondition (mcS b st u (some (9/10)) (some 1500)) ceBadFrame2 = false := by
    unfold mcGlobalCondition
    rw [hcov, hmot]
    norm_num
  have hpre : mcPreCondition (mcS b st u (some (9/10)) (some 1500)) ceBadFrame2 = false := by
    unfold mcPreCondition
    rw [hcov, hmot]
    norm_num
  refine ⟨hglob, hpre, ?_⟩
  show ensembleDebounce
      { mcS b st u (some (9/10)) (some 1500) with
          coverageEma := some (covEmaNext (mcS b st u (some (9/10)) (some 1500)) ceBadFrame2),
          motionEma := some (motEmaNext (mcS b st u (some (9/10)) (some 1500)) ceBadFrame2) }
      (mcGlobalCondition (mcS b st u (some (9/10)) (some 1500)) ceBadFrame2)
      (mcPreCondition (mcS b st u (some (9/10)) (some 1500)) ceBadFrame2)
      ceBadFrame2.now
    = ensembleDebounce (mcS b st u (some (9/10)) (some 1500)) false false 0
  rw [hcov, hmot, hglob, hpre]
  rfl

/-- A disqualifying debounce step preserves the `mcS` state shape. -/
theorem debounce_shape_mcS (b : Bool) (st u : ℕ) (e1 e2 : Option ℚ) :
    ∃ b2 st2 u2, ensembleDebounce (mcS b st u e1 e2) false false 0
      = mcS b2 st2 u2 e1 e2 := by
  unfold ensembleDebounce
  by_cases h : framesToLoseFinger ≤ u + 1
  · exact ⟨false, 0, u + 1, by simp [mcS, h]⟩
  · exact ⟨b, if 3 < u + 1 then st - 1 else st, u + 1, by simp [mcS, h]⟩

/-- Check that every frame of a run is evaluated as disqualifying (both the
global and the pre-detection condition false at the state it meets). -/
def allDisq (s : MCState) (fs : List MCFrame) : Bool :=
  (fs.foldl
    (fun acc f =>
      (acc.1 && !(mcGlobalCondition acc.2 f) && !(mcPreCondition acc.2 f),
        (analyzeAllStep acc.2 f).1))
    (true, s)).1

/-- A run of motion-1500 frames through `analyzeAll` equals the corresponding
run of disqualifying debounce steps. -/
theorem run_bad2 (k : ℕ) : ∀ (b : Bool) (st u : ℕ),
    runAnalyzeAll (mcS b st u (some (9/10)) (some 1500)) (List.replicate k ceBadFrame2)
      = runDisq (mcS b st u (some (9/10)) (some 1500)) (List.replicate k (0 : ℚ)) := by
  induction k with
  | zero => intro b st u; rfl
  | succ k ih =>
    intro b st u
    rw [List.replicate_succ, List.replicate_succ]
    show runAnalyzeAll ((analyzeAllStep (mcS b st u (some (9/10)) (some 1500)) ceBadFrame2).1)
        (List.replicate k ceBadFrame2)
      = runDisq (ensembleDebounce (mcS b st u (some (9/10)) (some 1500)) false false 0)
        (List.replicate k (0 : ℚ))
    rw [(bad2_step b st u).2.2]
    obtain ⟨b2, st2, u2, heq⟩ := debounce_shape_mcS b st u (some (9/10)) (some 1500)
    rw [heq]
    exact ih b2 st2 u2

/-- Every frame of a motion-1500 run is evaluated as disqualifying. -/
theorem allDisq_aux (k : ℕ) : ∀ (a b : Bool) (st u : ℕ),
    ((List.replicate k ceBadFrame2).foldl
      (fun acc f =>
        (acc.1 && !(mcGlobalCondition acc.2 f) && !(mcPreCondition acc.2 f),
          (analyzeAllStep acc.2 f).1))
      (a, mcS b st u (some (9/10)) (some 1500))).1 = a := by
  induction k with
  | zero => intro a b st u; rfl
  | succ k ih =>
    intro a b st u
    rw [List.replicate_succ, List.foldl_cons]
    rw [(bad2_step b st u).1, (bad2_step b st u).2.1, (bad2_step b st u).2.2]
    obtain ⟨b2, st2, u2, heq⟩ := debounce_shape_mcS b st u (some (9/10)) (some 1500)
    rw [heq]
    simpa using ih (a && !false && !false) b2 st2 u2

/-- The reaching prefix: seven qualifying frames then one disqualifying one. -/
def cePrefix : List MCFrame :=
  [ceGoodFrame, ceGoodFrame, ceGoodFrame, ceGoodFrame,
    ceGoodFrame, ceGoodFrame, ceGoodFrame, ceBadFrame1]

/-- The reachable ensemble state after the prefix: finger detected with one
unstable frame already counted. -/
def ceDetectedState : MCState := runAnalyzeAll (mkMCState 6) cePrefix

/-- Explicit value of the reachable state after the prefix. -/
theorem ceDetectedState_eq : ceDetectedState = mcS true 7 1 (some (9/10)) (some 1500) := by
  show runAnalyzeAll (mkMCState 6) cePrefix = _
  unfold cePrefix runAnalyzeAll
  simp only [List.foldl_cons, List.foldl_nil]
  have e0 : (analyzeAllStep (mkMCState 6) ceGoodFrame).1
      = mcS false 1 0 (some (9/10)) (some 0) := by rw [good_state_step0]; rfl
  have e1 : (analyzeAllStep (mcS false 1 0 (some (9/10)) (some 0)) ceGoodFrame).1
      = mcS false 2 0 (some (9/10)) (some 0) := by rw [good_state_step false 1 0]; rfl
  have e2 : (analyzeAllStep (mcS false 2 0 (some (9/10)) (some 0)) ceGoodFrame).1
      = mcS false 3 0 (some (9/10)) (some 0) := by rw [good_state_step false 2 0]; rfl
  have e3 : (analyzeAllStep (mcS false 3 0 (some (9/10)) (some 0)) ceGoodFrame).1
      = mcS false 4 0 (some (9/10)) (some 0) := by rw [good_state_step false 3 0]; rfl
  have e4 : (analyzeAllStep (mcS false 4 0 (some (9/10)) (some 0)) ceGoodFrame).1
      = mcS false 5 0 (some (9/10)) (some 0) := by rw [good_state_step false 4 0]; rfl
  have e5 : (analyzeAllStep (mcS false 5 0 (some (9/10)) (some 0)) ceGoodFrame).1
      = mcS false 6 0 (some (9/10)) (some 0) := by rw [good_state_step false 5 0]; rfl
  have e6 : (analyzeAllStep (mcS false 6 0 (some (9/10)) (some 0)) ceGoodFrame).1
      = mcS true 7 0 (some (9/10)) (some 0) := by rw [good_state_step false 6 0]; rfl
  have e7 : (analyzeAllStep (mcS true 7 0 (some (9/10)) (some 0)) ceBadFrame1).1
      = mcS true 7 1 (some (9/10)) (some 1500) := by rw [(bad1_step true 7 0).2.2]; rfl
  rw [e0, e1, e2, e3, e4, e5, e6, e7]

/-- Counterexample to C2 as stated: `ceDetectedState` is a reachable ensemble
state with `fingerDetected = true`, the following 29 (= `FRAMES_TO_LOSE_FINGER
- 1`) frames are all evaluated as disqualifying, and feeding them through
`analyzeAll` does flip `fingerDetected` to false — the reachable detected
state already carries one unstable frame, so 29 further frames reach the
loss threshold. -/
theorem mc_hysteresis_counterexample :
    ceDetectedState.fingerState = true ∧
      allDisq ceDetectedState (List.replicate 29 ceBadFrame2) = true ∧
      (runAnalyzeAll ceDetectedState (List.replicate 29 ceBadFrame2)).fingerState = false := by
  refine ⟨by rw [ceDetectedState_eq]; rfl, ?_, ?_⟩
  · rw [ceDetectedState_eq]
    unfold allDisq
    exact allDisq_aux 29 true true 7 1
  · rw [ceDetectedState_eq, run_bad2 29 true 7 1]
    rw [show (29 : ℕ) = 28 + 1 from rfl, List.replicate_succ']
    unfold runDisq
    rw [List.foldl_append, List.foldl_cons, List.foldl_nil]
    have hk := runDisq_keeps (List.replicate 28 (0 : ℚ))
      (mcS true 7 1 (some (9/10)) (some 1500)) rfl
      (by simp [mcS, framesToLoseFinger])
    unfold runDisq at hk
    apply disq_step_flips
    rw [hk.2]
    simp [mcS, framesToLoseFinger]

/-- C2 (amended) — the `analyzeAll` state update is the debounce of the two
consensus conditions, and from every ensemble state that just transitioned to
`fingerDetected = true` (such a transition always leaves the unstable counter
at zero, conjunct two): feeding `FRAMES_TO_LOSE_FINGER - 1` consecutive
disqualifying frames never flips the flag, feeding `FRAMES_TO_LOSE_FINGER`
does flip it, and the loss frame count (30, in the 20–30 range) exceeds the
confirmation count (7, in the 5–10 range). -/
theorem mc_hysteresis_after_transition :
    (∀ (s : MCState) (f : MCFrame),
        (analyzeAllStep s f).1 =
          ensembleDebounce
            { s with coverageEma := some (covEmaNext s f), motionEma := some (motEmaNext s f) }
            (mcGlobalCondition s f) (mcPreCondition s f) f.now ∧
        (analyzeAllStep s f).2.fingerDetected = (analyzeAllStep s f).1.fingerState) ∧
    (∀ (s : MCState) (g p : Bool) (t : ℚ), s.fingerState = false →
        (ensembleDebounce s g p t).fingerState = true →
        (ensembleDebounce s g p t).fingerUnstableCount = 0) ∧
    (∀ (s : MCState) (ts : List ℚ), s.fingerState = true → s.fingerUnstableCount = 0 →
        ts.length = framesToLoseFinger - 1 → (runDisq s ts).fingerState = true) ∧
    (∀ (s : MCState) (ts : List ℚ), s.fingerState = true → s.fingerUnstableCount = 0 →
        ts.length = framesToLoseFinger → (runDisq s ts).fingerState = false) ∧
    (framesToConfirmFinger < framesToLoseFinger ∧ 20 ≤ framesToLoseFinger ∧
      framesToLoseFinger ≤ 30 ∧ 5 ≤ framesToConfirmFinger ∧ framesToConfirmFinger ≤ 10) := by
  refine ⟨fun s f => ⟨rfl, rfl⟩, debounce_toggle_true_unstable_zero, ?_, ?_, ?_⟩
  · intro s ts h1 h2 h3
    exact (runDisq_keeps ts s h1 (by rw [h2, h3]; simp [framesToLoseFinger])).1
  · intro s ts h1 h2 h3
    have hne : ts ≠ [] := by
      intro h
      rw [h] at h3
      simp [framesToLoseFinger] at h3
    rw [← List.dropLast_append_getLast hne]
    unfold runDisq
    rw [List.foldl_append, List.foldl_cons, List.foldl_nil]
    have hlen : ts.dropLast.length = 29 := by
      rw [List.length_dropLast, h3]
      rfl
    have hk := runDisq_keeps ts.dropLast s h1
      (by rw [h2, hlen]; simp [framesToLoseFinger])
    unfold runDisq at hk
    apply disq_step_flips
    rw [hk.2, h2, hlen]
    simp [framesToLoseFinger]
  · refine ⟨?_, ?_, ?_, ?_, ?_⟩ <;> decide

/-- Witness for the amended C2: concrete instances of every conjunct with the
hypotheses discharged by evaluation. -/
theorem mc_hysteresis_after_transition_witness :
    ((analyzeAllStep (mkMCState 6) ceGoodFrame).1 =
        ensembleDebounce
          { mkMCState 6 with
              coverageEma := some (covEmaNext (mkMCState 6) ceGoodFrame)
              motionEma := some (motEmaNext (mkMCState 6) ceGoodFrame) }
          (mcGlobalCondition (mkMCState 6) ceGoodFrame)
          (mcPreCondition (mkMCState 6) ceGoodFrame) ceGoodFrame.now) ∧
      (ensembleDebounce (mcS false 6 0 none none) true true 0).fingerUnstableCount = 0 ∧
      (runDisq (mcS true 7 0 none none) (List.replicate 29 0)).fingerState = true ∧
      (runDisq (mcS true 7 0 none none) (List.replicate 30 0)).fingerState = false ∧
      framesToConfirmFinger < framesToLoseFinger :=
  ⟨(mc_hysteresis_after_transition.1 (mkMCState 6) ceGoodFrame).1,
    mc_hysteresis_after_transition.2.1 (mcS false 6 0 none none) true true 0 rfl rfl,
    mc_hysteresis_after_transition.2.2.1 (mcS true 7 0 none none) (List.replicate 29 0)
      rfl rfl rfl,
    mc_hysteresis_after_transition.2.2.2.1 (mcS true 7 0 none none) (List.replicate 30 0)
      rfl rfl rfl,
    mc_hysteresis_after_transition.2.2.2.2.1⟩

/-- Every collected BPM candidate is in `[50, 160]` and stems from a detected
channel with quality at least the floor. -/
theorem mem_collectValidBPMs {results : List ChannelResult} {b : ℚ}
    (hb : b ∈ collectValidBPMs results) :
    50 ≤ b ∧ b ≤ 160 ∧ ∃ r ∈ results, r.isFingerDetected = true ∧ r.bpm = some b ∧
      minQualityThreshold ≤ r.quality := by
  unfold collectValidBPMs at hb
  obtain ⟨r, hr, rfl⟩ := List.mem_map.mp hb
  obtain ⟨hrmem, hcond⟩ := List.mem_filter.mp hr
  simp only [Bool.and_eq_true, decide_eq_true_eq] at hcond
  obtain ⟨⟨⟨⟨hdet, htru⟩, h50⟩, h160⟩, hq⟩ := hcond
  refine ⟨h50, h160, r, hrmem, hdet, ?_, hq⟩
  cases hbpm : r.bpm with
  | none => rw [hbpm] at htru; simp [jsTruthy] at htru
  | some v => rfl

/-- Elementwise bounds give bounds on a list sum against length multiples. -/
theorem sum_bounds_of_mem (l : List ℚ) (lo hi : ℚ)
    (h : ∀ x ∈ l, lo ≤ x ∧ x ≤ hi) :
    lo * l.length ≤ l.sum ∧ l.sum ≤ hi * l.length := by
  induction l with
  | nil => simp
  | cons a t ih =>
    have ha := h a (List.mem_cons_self a t)
    have ht := ih (fun x hx => h x (List.mem_cons_of_mem a hx))
    simp only [List.sum_cons, List.length_cons]
    push_cast
    constructor <;> nlinarith [ha.1, ha.2, ht.1, ht.2]

/-- The rounded mean of a non-empty list stays inside elementwise integer
bounds. -/
theorem mean_jsRound_bounds (l : List ℚ) (lo hi : ℤ) (hne : l ≠ [])
    (h : ∀ x ∈ l, (lo : ℚ) ≤ x ∧ x ≤ (hi : ℚ)) :
    (lo : ℚ) ≤ jsRound (l.sum / (l.length : ℚ)) ∧
      jsRound (l.sum / (l.length : ℚ)) ≤ (hi : ℚ) := by
  have hn : 0 < (l.length : ℚ) := by
    have := List.length_pos.mpr hne
    exact_mod_cast this
  have hs := sum_bounds_of_mem l lo hi h
  have h1 : (lo : ℚ) ≤ l.sum / (l.length : ℚ) := (le_div_iff₀ hn).mpr (by linarith [hs.1])
  have h2 : l.sum / (l.length : ℚ) ≤ (hi : ℚ) := (div_le_iff₀ hn).mpr (by linarith [hs.2])
  exact jsRound_bounds lo hi _ h1 h2

/-- Pull the common quality total out of the weighted sum. -/
theorem weighted_sum_div (l : List ChannelResult) (Q : ℚ) :
    (l.map (fun r => r.bpm.getD 0 * (r.quality / Q))).sum
      = (l.map (fun r => r.bpm.getD 0 * r.quality)).sum / Q := by
  induction l with
  | nil => simp
  | cons a t ih =>
    simp only [List.map_cons, List.sum_cons, ih, add_div, mul_div_assoc]

/-- Bounds on the quality-weighted numerator from elementwise bounds. -/
theorem weighted_numerator_bounds (l : List ChannelResult) (lo hi : ℚ)
    (h : ∀ r ∈ l, lo ≤ r.bpm.getD 0 ∧ r.bpm.getD 0 ≤ hi ∧ 20 ≤ r.quality) :
    lo * (l.map (fun r => r.quality)).sum ≤ (l.map (fun r => r.bpm.getD 0 * r.quality)).sum ∧
      (l.map (fun r => r.bpm.getD 0 * r.quality)).sum ≤ hi * (l.map (fun r => r.quality)).sum := by
  induction l with
  | nil => simp
  | cons a t ih =>
    have ha := h a (List.mem_cons_self a t)
    have ht := ih (fun x hx => h x (List.mem_cons_of_mem a hx))
    simp only [List.map_cons, List.sum_cons]
    constructor <;> nlinarith [ha.1, ha.2.1, ha.2.2, ht.1, ht.2]

/-- The quality total of a non-empty qualifying list is positive. -/
theorem quality_sum_pos (l : List ChannelResult) (hne : l ≠ [])
    (h : ∀ r ∈ l, 20 ≤ r.quality) : 0 < (l.map (fun r => r.quality)).sum := by
  cases l with
  | nil => exact absurd rfl hne
  | cons a t =>
    have hnn : 0 ≤ (t.map (fun r => r.quality)).sum := by
      apply List.sum_nonneg
      intro x hx
      obtain ⟨r, hr, rfl⟩ := List.mem_map.mp hx
      have := h r (List.mem_cons_of_mem a hr)
      linarith
    have := h a (List.mem_cons_self a t)
    simp only [List.map_cons, List.sum_cons]
    linarith

/-- The rounded quality-weighted BPM mean stays inside elementwise integer
bounds. -/
theorem weighted_jsRound_bounds (l : List ChannelResult) (lo hi : ℤ) (hne : l ≠ [])
    (h : ∀ r ∈ l, (lo : ℚ) ≤ r.bpm.getD 0 ∧ r.bpm.getD 0 ≤ (hi : ℚ) ∧ 20 ≤ r.quality) :
    (lo : ℚ) ≤ jsRound ((l.map (fun r =>
        r.bpm.getD 0 * (r.quality / (l.map (fun r => r.quality)).sum))).sum) ∧
      jsRound ((l.map (fun r =>
        r.bpm.getD 0 * (r.quality / (l.map (fun r => r.quality)).sum))).sum) ≤ (hi : ℚ) := by
  have hQ : 0 < (l.map (fun r => r.quality)).sum :=
    quality_sum_pos l hne (fun r hr => (h r hr).2.2)
  rw [weighted_sum_div]
  have hn := weighted_numerator_bounds l lo hi h
  have h1 : (lo : ℚ) ≤ (l.map (fun r => r.bpm.getD 0 * r.quality)).sum
      / (l.map (fun r => r.quality)).sum := (le_div_iff₀ hQ).mpr (by linarith [hn.1])
  have h2 : (l.map (fun r => r.bpm.getD 0 * r.quality)).sum
      / (l.map (fun r => r.quality)).sum ≤ (hi : ℚ) := (div_le_iff₀ hQ).mpr (by linarith [hn.2])
  exact jsRound_bounds lo hi _ h1 h2

/-- Sorting preserves membership. -/
theorem mem_sortAsc {x : ℚ} {l : List ℚ} (hx : x ∈ sortAsc l) : x ∈ l :=
  (List.perm_insertionSort _ l).mem_iff.mp hx

/-- The IQR filter only keeps original candidates. -/
theorem mem_of_mem_iqrFilter {x : ℚ} {v : List ℚ} (hx : x ∈ iqrFilter v) : x ∈ v := by
  unfold iqrFilter at hx
  exact mem_sortAsc (List.mem_filter.mp hx).1

/-- For two or more candidates, `aggregateBPMAdvanced` returns a value and it
is bounded by any bounds covering the IQR-filtered candidates and the sorted
median. -/
theorem aggregate_main_bounds (results : List ChannelResult) (a b : ℚ) (t : List ℚ)
    (lo hi : ℤ)
    (hfil : ∀ x ∈ iqrFilter (a :: b :: t), (lo : ℚ) ≤ x ∧ x ≤ (hi : ℚ))
    (hmid : (lo : ℚ) ≤ (sortAsc (a :: b :: t)).getD ((a :: b :: t).length / 2) 0 ∧
        (sortAsc (a :: b :: t)).getD ((a :: b :: t).length / 2) 0 ≤ (hi : ℚ)) :
    ∃ r, aggregateBPMAdvanced results (a :: b :: t) = some r ∧ (lo : ℚ) ≤ r ∧ r ≤ (hi : ℚ) := by
  dsimp only [aggregateBPMAdvanced]
  split
  · exact ⟨_, rfl, hmid.1, hmid.2⟩
  · next hfe =>
    split
    · next hqw =>
      have hb := mean_jsRound_bounds (iqrFilter (a :: b :: t)) lo hi hfe hfil
      exact ⟨_, rfl, hb.1, hb.2⟩
    · next hqw =>
      have helem : ∀ r ∈ results.filter (fun r =>
          r.isFingerDetected && jsTruthy r.bpm
            && decide (r.bpm.getD 0 ∈ iqrFilter (a :: b :: t))
            && decide (minQualityThreshold ≤ r.quality)),
          (lo : ℚ) ≤ r.bpm.getD 0 ∧ r.bpm.getD 0 ≤ (hi : ℚ) ∧ 20 ≤ r.quality := by
        intro r hr
        obtain ⟨_, hcond⟩ := List.mem_filter.mp hr
        simp only [Bool.and_eq_true, decide_eq_true_eq] at hcond
        obtain ⟨⟨⟨_, _⟩, hmem⟩, hq⟩ := hcond
        have hbd := hfil _ hmem
        exact ⟨hbd.1, hbd.2, by simpa [minQualityThreshold] using hq⟩
      have hb := weighted_jsRound_bounds _ lo hi hqw helem
      exact ⟨_, rfl, hb.1, hb.2⟩

/-- C4 — every BPM candidate collected by `analyzeAll` lies in `[50, 160]`
and comes from a detected channel meeting the quality floor, and whenever
`aggregateBPMAdvanced` applied to the collected candidates returns a value,
that value lies in `[50, 160]`. -/
theorem mc_bpm_candidates_range :
    (∀ (results : List ChannelResult) (b : ℚ), b ∈ collectValidBPMs results →
        50 ≤ b ∧ b ≤ 160 ∧ ∃ r ∈ results, r.isFingerDetected = true ∧ r.bpm = some b ∧
          minQualityThreshold ≤ r.quality) ∧
    (∀ (results : List ChannelResult) (r : ℚ),
        aggregateBPMAdvanced results (collectValidBPMs results) = some r →
        50 ≤ r ∧ r ≤ 160) := by
  refine ⟨fun results b hb => mem_collectValidBPMs hb, fun results r hr => ?_⟩
  rcases hv : collectValidBPMs results with _ | ⟨b, _ | ⟨b2, t2⟩⟩
  · rw [hv] at hr
    dsimp only [aggregateBPMAdvanced] at hr
    split at hr
    · exact absurd hr (by simp)
    · next hfb =>
      rw [Option.some.injEq] at hr
      have helem : ∀ x ∈ (results.filter (fun r =>
          jsTruthy r.bpm && decide (50 ≤ r.bpm.getD 0)
            && decide (r.bpm.getD 0 ≤ 160))).map (fun r => r.bpm.getD 0),
          ((50 : ℤ) : ℚ) ≤ x ∧ x ≤ ((160 : ℤ) : ℚ) := by
        intro x hx
        obtain ⟨q, hq, rfl⟩ := List.mem_map.mp hx
        obtain ⟨_, hcond⟩ := List.mem_filter.mp hq
        simp only [Bool.and_eq_true, decide_eq_true_eq] at hcond
        exact ⟨by exact_mod_cast hcond.1.2, by exact_mod_cast hcond.2⟩
      have hb := mean_jsRound_bounds _ 50 160 hfb helem
      rw [hr] at hb
      exact ⟨by exact_mod_cast hb.1, by exact_mod_cast hb.2⟩
  · rw [hv] at hr
    dsimp only [aggregateBPMAdvanced] at hr
    rw [Option.some.injEq] at hr
    have hmem : b ∈ collectValidBPMs results := by rw [hv]; exact List.mem_cons_self b []
    have := mem_collectValidBPMs hmem
    rw [← hr]
    exact ⟨this.1, this.2.1⟩
  · have hbounds : ∀ x ∈ (b :: b2 :: t2), ((50 : ℤ) : ℚ) ≤ x ∧ x ≤ ((160 : ℤ) : ℚ) := by
      intro x hx
      rw [← hv] at hx
      have := mem_collectValidBPMs hx
      exact ⟨by exact_mod_cast this.1, by exact_mod_cast this.2.1⟩
    have hfil : ∀ x ∈ iqrFilter (b :: b2 :: t2), ((50 : ℤ) : ℚ) ≤ x ∧ x ≤ ((160 : ℤ) : ℚ) :=
      fun x hx => hbounds x (mem_of_mem_iqrFilter hx)
    have hmidmem : (sortAsc (b :: b2 :: t2)).getD ((b :: b2 :: t2).length / 2) 0
        ∈ (b :: b2 :: t2) := by
      have hlen : (b :: b2 :: t2).length / 2 < (sortAsc (b :: b2 :: t2)).length := by
        unfold sortAsc
        rw [(List.perm_insertionSort _ (b :: b2 :: t2)).length_eq]
        exact Nat.div_lt_self (by simp) (by norm_num)
      rw [List.getD_eq_getElem _ _ hlen]
      exact mem_sortAsc (List.getElem_mem hlen)
    obtain ⟨r2, heq, h1, h2⟩ := aggregate_main_bounds results b b2 t2 50 160 hfil
      ⟨(hbounds _ hmidmem).1, (hbounds _ hmidmem).2⟩
    rw [hv, heq, Option.some.injEq] at hr
    rw [← hr]
    exact ⟨by exact_mod_cast h1, by exact_mod_cast h2⟩

/-- Collection on one concrete detected channel with bpm 72. -/
theorem collect_single : collectValidBPMs [ceChannelResult] = [72] := by
  unfold collectValidBPMs ceChannelResult
  norm_num [List.filter, jsTruthy, minQualityThreshold]

/-- Witness for C4: the single-candidate instance, with both membership and
the aggregation hypothesis discharged concretely. -/
theorem mc_bpm_candidates_range_witness :
    ((50 : ℚ) ≤ 72 ∧ (72 : ℚ) ≤ 160 ∧ ∃ r ∈ [ceChannelResult], r.isFingerDetected = true ∧
        r.bpm = some 72 ∧ minQualityThreshold ≤ r.quality) ∧
      ((50 : ℚ) ≤ 72 ∧ (72 : ℚ) ≤ 160) :=
  ⟨mc_bpm_candidates_range.1 [ceChannelResult] 72
      (by rw [collect_single]; exact List.mem_cons_self 72 []),
    mc_bpm_candidates_range.2 [ceChannelResult] 72 (by rw [collect_single]; rfl)⟩

/-- Sorted form of the concrete candidate list of C3. -/
theorem iqr_instance_sorted :
    sortAsc [(70 : ℚ), 71, 69, 70, 150] = [69, 70, 70, 71, 150] := by
  norm_num [sortAsc, List.insertionSort, List.orderedInsert]

/-- The IQR filter on `[70, 71, 69, 70, 150]` drops exactly the outlier 150. -/
theorem iqr_instance_filtered :
    iqrFilter [(70 : ℚ), 71, 69, 70, 150] = [69, 70, 70, 71] := by
  unfold iqrFilter
  rw [iqr_instance_sorted]
  norm_num [List.filter]

/-- C3 — on the candidate list `[70, 71, 69, 70, 150]` the IQR outlier step
excludes 150, and for every assignment of channel results (hence for every
choice of quality weights) the aggregated BPM exists and lies in `[69, 71]`:
the weighted path averages only surviving candidates, and the fallback paths
average the survivors or take their median. -/
theorem mc_aggregate_iqr_instance (results : List ChannelResult) :
    (150 : ℚ) ∉ iqrFilter [70, 71, 69, 70, 150] ∧
      ∃ r, aggregateBPMAdvanced results [70, 71, 69, 70, 150] = some r ∧
        69 ≤ r ∧ r ≤ 71 := by
  constructor
  · rw [iqr_instance_filtered]
    norm_num
  · have hfil : ∀ x ∈ iqrFilter [(70 : ℚ), 71, 69, 70, 150],
        ((69 : ℤ) : ℚ) ≤ x ∧ x ≤ ((71 : ℤ) : ℚ) := by
      rw [iqr_instance_filtered]
      intro x hx
      have hx4 : x = 69 ∨ x = 70 ∨ x = 70 ∨ x = 71 := by simpa using hx
      rcases hx4 with rfl | rfl | rfl | rfl <;> constructor <;> norm_num
    have hmid : ((69 : ℤ) : ℚ) ≤ (sortAsc [(70 : ℚ), 71, 69, 70, 150]).getD
          (([(70 : ℚ), 71, 69, 70, 150]).length / 2) 0 ∧
        (sortAsc [(70 : ℚ), 71, 69, 70, 150]).getD
          (([(70 : ℚ), 71, 69, 70, 150]).length / 2) 0 ≤ ((71 : ℤ) : ℚ) := by
      rw [iqr_instance_sorted]
      constructor <;> norm_num
    obtain ⟨r, heq, h1, h2⟩ :=
      aggregate_main_bounds results 70 71 [69, 70, 150] 69 71 hfil hmid
    exact ⟨r, heq, by exact_mod_cast h1, by exact_mod_cast h2⟩

/-- Iterated `pushSample` calls. -/
def runPush (ch : PPGChannel) (inputs : List (ℚ × ℚ)) : PPGChannel :=
  inputs.foldl (fun c p => c.pushSample p.1 p.2) ch

/-- The buffer invariant maintained by `pushSample` under gapped monotone
timestamps: sorted times, pairwise gaps of at least `dS` seconds, and every
sample within `W` seconds of (and not after) the newest one. -/
def BufInv (b : List Sample) (W dS : ℚ) : Prop :=
  List.Chain' (fun x y : Sample => x.t ≤ y.t) b ∧
  List.Chain' (fun x y : Sample => x.t + dS ≤ y.t) b ∧
  ∀ z ∈ b.getLast?, ∀ s ∈ b, z.t - W ≤ s.t ∧ s.t ≤ z.t

/-- A suffix of a chain is a chain. -/
theorem chain'_of_suffix {α : Type} {R : α → α → Prop} {l1 l2 : List α}
    (h : l1 <:+ l2) (hc : List.Chain' R l2) : List.Chain' R l1 := by
  obtain ⟨u, rfl⟩ := h
  exact (List.chain'_append.mp hc).2.1

/-- In a time-sorted buffer the head is the oldest sample. -/
theorem chain_le_head_sample :
    ∀ (l : List Sample) (a s : Sample),
      List.Chain' (fun x y : Sample => x.t ≤ y.t) (a :: l) → s ∈ l → a.t ≤ s.t := by
  intro l
  induction l with
  | nil => intro a s _ hs; cases hs
  | cons b t ih =>
    intro a s hchain hs
    have hab : a.t ≤ b.t := (List.chain'_cons.mp hchain).1
    rcases List.mem_cons.mp hs with rfl | hs2
    · exact hab
    · exact le_trans hab (ih b s (List.chain'_cons.mp hchain).2 hs2)

/-- After trimming a time-sorted buffer, every retained sample passes the
cut-off. -/
theorem dropWhile_time_ge (c : ℚ) :
    ∀ (l : List Sample), List.Chain' (fun x y : Sample => x.t ≤ y.t) l →
      ∀ s ∈ l.dropWhile (fun s => decide (s.t < c)), c ≤ s.t := by
  intro l
  induction l with
  | nil => intro _ s hs; cases hs
  | cons a t ih =>
    intro hchain s hs
    rw [List.dropWhile_cons] at hs
    by_cases ha : a.t < c
    · rw [if_pos (by simpa using ha)] at hs
      exact ih (List.Chain'.tail hchain) s hs
    · rw [if_neg (by simpa using ha)] at hs
      rcases List.mem_cons.mp hs with rfl | hs2
      · linarith
      · have := chain_le_head_sample t a s hchain hs2
        linarith

/-- One `pushSample` call preserves the buffer invariant and puts the new
sample last, provided the new timestamp extends the gapped order. -/
theorem pushSample_inv (ch : PPGChannel) (raw tMs dS W : ℚ) (hw : ch.windowSec = W)
    (hW : 0 < W) (hd : 0 < dS) (hinv : BufInv ch.buffer W dS)
    (hnew : ∀ s ∈ ch.buffer, s.t + dS ≤ tMs / 1000) :
    BufInv (ch.pushSample raw tMs).buffer W dS ∧
      (ch.pushSample raw tMs).buffer.getLast? = some ⟨tMs / 1000, raw * ch.gain⟩ := by
  have hbuf : (ch.pushSample raw tMs).buffer
      = (ch.buffer ++ [(⟨tMs / 1000, raw * ch.gain⟩ : Sample)]).dropWhile
          (fun s => decide (s.t < tMs / 1000 - W)) := by
    rw [← hw]; rfl
  have hzmem : ∀ z ∈ ch.buffer.getLast?, z ∈ ch.buffer := by
    intro z hz
    obtain ⟨h, rfl⟩ := List.mem_getLast?_eq_getLast hz
    exact List.getLast_mem h
  have hLle : List.Chain' (fun x y : Sample => x.t ≤ y.t)
      (ch.buffer ++ [⟨tMs / 1000, raw * ch.gain⟩]) := by
    rw [List.chain'_append]
    refine ⟨hinv.1, List.chain'_singleton _, ?_⟩
    intro z hz y hy
    simp only [List.head?_cons, Option.mem_def, Option.some.injEq] at hy
    subst hy
    have := hnew z (hzmem z hz)
    show z.t ≤ tMs / 1000
    linarith
  have hLgap : List.Chain' (fun x y : Sample => x.t + dS ≤ y.t)
      (ch.buffer ++ [⟨tMs / 1000, raw * ch.gain⟩]) := by
    rw [List.chain'_append]
    refine ⟨hinv.2.1, List.chain'_singleton _, ?_⟩
    intro z hz y hy
    simp only [List.head?_cons, Option.mem_def, Option.some.injEq] at hy
    subst hy
    exact hnew z (hzmem z hz)
  have hSfx : (ch.pushSample raw tMs).buffer
      <:+ ch.buffer ++ [⟨tMs / 1000, raw * ch.gain⟩] := by
    rw [hbuf]; exact List.dropWhile_suffix _
  have hne : (ch.pushSample raw tMs).buffer ≠ [] := by
    rw [hbuf]
    apply dropWhile_append_singleton_ne_nil
    simp only [decide_eq_false_iff_not, not_lt]
    linarith
  have hlast : (ch.pushSample raw tMs).buffer.getLast? = some ⟨tMs / 1000, raw * ch.gain⟩ := by
    obtain ⟨u, hu⟩ := hSfx
    have hL : (u ++ (ch.pushSample raw tMs).buffer).getLast?
        = some ⟨tMs / 1000, raw * ch.gain⟩ := by
      rw [hu, List.getLast?_concat]
    rwa [List.getLast?_append_of_ne_nil u hne] at hL
  have hwin : ∀ s ∈ (ch.pushSample raw tMs).buffer, tMs / 1000 - W ≤ s.t := by
    intro s hs
    rw [hbuf] at hs
    exact dropWhile_time_ge _ _ hLle s hs
  have hub : ∀ s ∈ (ch.pushSample raw tMs).buffer, s.t ≤ tMs / 1000 := by
    intro s hs
    have hmem := hSfx.subset hs
    rcases List.mem_append.mp hmem with h1 | h1
    · have := hnew s h1; linarith
    · simp only [List.mem_singleton] at h1
      rw [h1]
  refine ⟨⟨chain'_of_suffix hSfx hLle, chain'_of_suffix hSfx hLgap, ?_⟩, hlast⟩
  intro z hz s hs
  rw [hlast] at hz
  simp only [Option.mem_def, Option.some.injEq] at hz
  subst hz
  exact ⟨hwin s hs, hub s hs⟩

/-- Folding gapped monotone pushes preserves the buffer invariant. -/
theorem runPush_inv (W dS : ℚ) (hW : 0 < W) (hd : 0 < dS) :
    ∀ (inputs : List (ℚ × ℚ)) (ch : PPGChannel), ch.windowSec = W →
      List.Chain' (fun p q : ℚ × ℚ => p.2 / 1000 + dS ≤ q.2 / 1000) inputs →
      BufInv ch.buffer W dS →
      (∀ p ∈ inputs.head?, ∀ s ∈ ch.buffer, s.t + dS ≤ p.2 / 1000) →
      BufInv (runPush ch inputs).buffer W dS := by
  intro inputs
  induction inputs with
  | nil => intro ch _ _ hinv _; exact hinv
  | cons p rest ih =>
    intro ch hw hchain hinv hhead
    have hnew : ∀ s ∈ ch.buffer, s.t + dS ≤ p.2 / 1000 :=
      hhead p (by simp)
    have hstep := pushSample_inv ch p.1 p.2 dS W hw hW hd hinv hnew
    have hrun : runPush ch (p :: rest) = runPush (ch.pushSample p.1 p.2) rest := rfl
    rw [hrun]
    have hw2 : (ch.pushSample p.1 p.2).windowSec = W := hw
    have hchain2 := (List.chain'_cons'.mp hchain).2
    have hhead2 : ∀ q ∈ rest.head?, ∀ s ∈ (ch.pushSample p.1 p.2).buffer,
        s.t + dS ≤ q.2 / 1000 := by
      intro q hq s hs
      have hrel := (List.chain'_cons'.mp hchain).1 q hq
      have hle := (hstep.1.2.2 _ (by rw [hstep.2]; rfl) s hs).2
      show s.t + dS ≤ q.2 / 1000
      have : s.t ≤ p.2 / 1000 := hle
      linarith
    exact ih (ch.pushSample p.1 p.2) hw2 hchain2 hstep.1 hhead2

/-- In a `dS`-gapped chain the last time exceeds the head time by at least
`length · dS`. -/
theorem gap_head_last (dS : ℚ) :
    ∀ (l : List Sample) (a : Sample),
      List.Chain' (fun x y : Sample => x.t + dS ≤ y.t) (a :: l) →
      ∀ z ∈ (a :: l).getLast?, a.t + l.length * dS ≤ z.t := by
  intro l
  induction l with
  | nil =>
    intro a _ z hz
    simp only [List.getLast?_singleton, Option.mem_def, Option.some.injEq] at hz
    subst hz
    simp
  | cons b t ih =>
    intro a hchain z hz
    have h1 : a.t + dS ≤ b.t := (List.chain'_cons.mp hchain).1
    have h2 := ih b (List.chain'_cons.mp hchain).2 z (by
      rwa [List.getLast?_cons_cons] at hz)
    simp only [List.length_cons]
    push_cast
    linarith

/-- A `dS`-gapped buffer confined to a `W`-second window holds at most
`W/dS + 1` samples. -/
theorem buffer_count_bound (b : List Sample) (W dS : ℚ) (hW : 0 < W) (hd : 0 < dS)
    (hgap : List.Chain' (fun x y : Sample => x.t + dS ≤ y.t) b)
    (hwin : ∀ z ∈ b.getLast?, ∀ s ∈ b, z.t - W ≤ s.t ∧ s.t ≤ z.t) :
    (b.length : ℚ) * dS ≤ W + dS := by
  cases b with
  | nil => simp; linarith
  | cons a t =>
    have hne : (a :: t) ≠ [] := List.cons_ne_nil a t
    have hz : (a :: t).getLast? = some ((a :: t).getLast hne) := List.getLast?_eq_getLast _ hne
    have h1 := gap_head_last dS t a hgap _ (by rw [hz]; rfl)
    have h2 := (hwin _ (by rw [hz]; rfl) a (List.mem_cons_self a t)).1
    simp only [List.length_cons]
    push_cast
    linarith

/-- C8 — under `pushSample` calls with monotonically increasing timestamps
(at least `d` milliseconds apart): trimming removes only a prefix (the new
buffer is a suffix of the old buffer plus the new sample), the buffer stays
sorted by increasing time, every retained sample lies within the window
length of the newest sample, and — reading "the window's expected sample
count" as `windowSec / (d/1000)` for frame interval `d` — whenever the window
spans at least two expected samples (`d ≤ 500·W`) the buffer size is at most
1.5 times that count. -/
theorem ppg_buffer_invariants (cid : ℕ) (W g d : ℚ) (inputs : List (ℚ × ℚ))
    (hW : 0 < W) (hd : 0 < d)
    (hgap : List.Chain' (fun p q : ℚ × ℚ => p.2 + d ≤ q.2) inputs) :
    (∀ (ch : PPGChannel) (raw tMs : ℚ),
        (ch.pushSample raw tMs).buffer
          <:+ ch.buffer ++ [(⟨tMs / 1000, raw * ch.gain⟩ : Sample)]) ∧
    List.Chain' (fun x y : Sample => x.t ≤ y.t)
      (runPush (mkPPGChannel cid W g) inputs).buffer ∧
    (∀ z ∈ (runPush (mkPPGChannel cid W g) inputs).buffer.getLast?,
        ∀ s ∈ (runPush (mkPPGChannel cid W g) inputs).buffer,
          z.t - W ≤ s.t ∧ s.t ≤ z.t) ∧
    (d ≤ 500 * W →
        ((runPush (mkPPGChannel cid W g) inputs).buffer.length : ℚ)
          ≤ (3/2) * (W / (d / 1000))) := by
  have hdS : 0 < d / 1000 := by positivity
  have hchainS : List.Chain' (fun p q : ℚ × ℚ => p.2 / 1000 + d / 1000 ≤ q.2 / 1000) inputs := by
    refine List.Chain'.imp ?_ hgap
    intro a b h
    linarith
  have hinv0 : BufInv (mkPPGChannel cid W g).buffer W (d / 1000) := by
    refine ⟨List.chain'_nil, List.chain'_nil, ?_⟩
    intro z hz
    simp [mkPPGChannel] at hz
  have hfold := runPush_inv W (d / 1000) hW hdS inputs (mkPPGChannel cid W g) rfl
    hchainS hinv0 (by intro p _ s hs; simp [mkPPGChannel] at hs)
  refine ⟨?_, hfold.1, hfold.2.2, ?_⟩
  · intro ch raw tMs
    exact List.dropWhile_suffix _
  · intro h500
    have hcb := buffer_count_bound _ W (d / 1000) hW hdS hfold.2.1 hfold.2.2
    have hL0 : (0 : ℚ) ≤ ((runPush (mkPPGChannel cid W g) inputs).buffer.length : ℚ) := by
      positivity
    have hE : 2 ≤ W / (d / 1000) := by
      rw [le_div_iff₀ hdS]
      linarith
    have hL : ((runPush (mkPPGChannel cid W g) inputs).buffer.length : ℚ)
        ≤ W / (d / 1000) + 1 := by
      rw [← sub_nonneg]
      have expand : W / (d / 1000) + 1
          - ((runPush (mkPPGChannel cid W g) inputs).buffer.length : ℚ)
          = (W + d / 1000
              - ((runPush (mkPPGChannel cid W g) inputs).buffer.length : ℚ) * (d / 1000))
            / (d / 1000) := by
        field_simp
        ring
      rw [expand]
      apply div_nonneg _ (le_of_lt hdS)
      linarith
    linarith

/-- Witness for C8: three samples 33 ms apart on an 8-second window satisfy
the sortedness conclusion and the 1.5x size bound. -/
theorem ppg_buffer_invariants_witness :
    List.Chain' (fun x y : Sample => x.t ≤ y.t)
      (runPush (mkPPGChannel 0 8 1) ([(5, 0), (5, 33), (5, 66)] : List (ℚ × ℚ))).buffer ∧
      ((runPush (mkPPGChannel 0 8 1)
          ([(5, 0), (5, 33), (5, 66)] : List (ℚ × ℚ))).buffer.length : ℚ)
        ≤ (3/2) * (8 / ((33 : ℚ) / 1000)) := by
  have hchain : List.Chain' (fun p q : ℚ × ℚ => p.2 + 33 ≤ q.2)
      ([(5, 0), (5, 33), (5, 66)] : List (ℚ × ℚ)) := by
    simp only [List.chain'_cons, List.chain'_singleton, and_true]
    norm_num
  have h := ppg_buffer_invariants 0 8 1 33 ([(5, 0), (5, 33), (5, 66)] : List (ℚ × ℚ))
    (by norm_num) (by norm_num) hchain
  exact ⟨h.2.1, h.2.2.2 (by norm_num)⟩
